import Mathlib

/-!
Verification development for the movie-Akinator question/elimination engine of
this repository (`src/backend/engines/engine_akinator.py`).

Modelling conventions:
* Python floats are modelled as exact rationals (`ℚ`); every constant used by
  the engine (5.0, -1.0, 3.0, 0.5, 1.5, -2.0, -0.75, 0.2, 0.35, the category
  multipliers, 1e9) is exactly representable.
* `entropy_split` computes `-p*log2(p)` terms, which are irrational in general;
  it is abstracted as a parameter `ent : ℕ → ℕ → ℚ` of the scorer and the
  selector.  None of the properties below depends on its values; concrete
  instances used on concrete inputs agree in sign with the real function.
* Python dicts keyed by movie id are association lists (first binding wins),
  Python sets of strings are lists used up to membership.
* `movie_id(m)` reads the `id` field (an int or absent); the `Movie` record
  stores it directly as `Option Int`.
* Enrichment (`get_details`) is modelled as a function `Int → Details`; for an
  identifier that is unknown to the database the source returns an empty dict,
  i.e. a record with no collection, no keywords and no cast.
-/

attribute [local semireducible] Rat.add Rat.mul Rat.inv Rat.sub Rat.ofScientific

set_option linter.unreachableTactic false

set_option linter.unusedTactic false

set_option linter.unnecessarySeqFocus false

/- String helpers mirroring the Python str operations used by the engine. -/

/-- Check that the second list starts with the first list. -/
def chars_start : List Char → List Char → Bool
  | [], _ => true
  | _ :: _, [] => false
  | a :: as, b :: bs => (a == b) && chars_start as bs

/-- Check that the needle occurs as a contiguous run of the haystack. -/
def chars_sub (needle : List Char) : List Char → Bool
  | [] => needle.isEmpty
  | c :: t => chars_start needle (c :: t) || chars_sub needle t

/-- Python `s.startswith(t)`. -/
def str_starts (s t : String) : Bool := chars_start t.toList s.toList

/-- Python `t in s` (substring containment). -/
def str_has (s t : String) : Bool := chars_sub t.toList s.toList

/-- Python `s.lower()` (the data handled by the engine is ASCII). -/
def str_lower (s : String) : String := String.mk (s.toList.map Char.toLower)

/-- Python `s.startswith((t1, t2, ...))`. -/
def str_starts_any (s : String) (ts : List String) : Bool := ts.any (fun t => str_starts s t)

/-- One catalog row as the engine sees it: the pool-level fields read by
`movie_id`, `sort_candidates` and the pool-level predicate checks. -/
structure Movie where
  id : Option Int
  title : Option String
  popularity : ℚ
  original_language : Option String
deriving DecidableEq

/-- Source `movie_id(m)`: the `id` field of the row, when present. -/
def movie_id (m : Movie) : Option Int := m.id

/-- A `belongs_to_collection` record (only its `name` is read). -/
structure Collection where
  name : String
deriving DecidableEq

/-- One cast entry of the enriched record (`name` and `character` are read). -/
structure CastMember where
  name : String
  character : String
deriving DecidableEq

/-- The enriched per-identifier record returned by `get_details`: the
collection reference, the keyword names and the ordered billed cast. -/
structure Details where
  belongs_to_collection : Option Collection
  keywords : List String
  cast : List CastMember
deriving DecidableEq

/-- The record `get_details` returns for an identifier with no data: no
collection, no keywords, no cast. -/
def empty_details : Details :=
  { belongs_to_collection := none, keywords := [], cast := [] }

/-- Source `pred_language(lang_code)`: reads `original_language` from the
pool-level row; an absent or empty value yields unknown. -/
def pred_language (lang_code : String) (m : Movie) : Option Bool :=
  match m.original_language with
  | none => none
  | some lang => if lang == "" then none else some (lang == lang_code)

/-- Source `pred_franchise_name(conn, franchise)` (lines 538-573): title
first, then the collection name, then the keywords; `False` only when some
enriched data was present, `None` when nothing was. -/
def pred_franchise_name (details : Int → Details) (franchise : String) (m : Movie) :
    Option Bool :=
  let fn := str_lower franchise
  match movie_id m with
  | none => none
  | some mid =>
    if str_has (str_lower (m.title.getD "")) fn then some true
    else
      let d := details mid
      let coll_hit :=
        match d.belongs_to_collection with
        | some coll => str_has (str_lower coll.name) fn
        | none => false
      if coll_hit then some true
      else if d.keywords.any (fun kw => str_has (str_lower kw) fn) then some true
      else if d.belongs_to_collection.isSome || !(d.keywords.isEmpty) then some false
      else none

/-- Source `pred_is_harry_potter(conn)` (lines 600-641): title, collection,
keywords, then the two-of-three lead actors check; ends with `return False`. -/
def pred_is_harry_potter (details : Int → Details) (m : Movie) : Option Bool :=
  if str_has (str_lower (m.title.getD "")) "harry potter" then some true
  else
    match movie_id m with
    | none => none
    | some mid =>
      let d := details mid
      let coll_hit :=
        match d.belongs_to_collection with
        | some coll =>
          str_has (str_lower coll.name) "harry potter" ||
            str_has (str_lower coll.name) "wizarding world"
        | none => false
      if coll_hit then some true
      else if d.keywords.any (fun kw =>
          str_has (str_lower kw) "harry potter" || str_has (str_lower kw) "hogwarts") then
        some true
      else
        let top_actors := (d.cast.take 5).map (fun c => str_lower c.name)
        let hp_actors := ["daniel radcliffe", "emma watson", "rupert grint"]
        let match_count :=
          (hp_actors.filter (fun actor => top_actors.any (fun ta => str_has ta actor))).length
        if 2 ≤ match_count then some true
        else some false

/-- A question: unique key, display text, three-valued predicate, optional
requires-set and excludes-set (source `Question` dataclass). -/
structure Question where
  key : String
  text : String
  predicate : Movie → Option Bool
  requires : Option (List String) := none
  excludes : Option (List String) := none

/-- The five answer codes accepted by `update_state_with_answer`
(`read_answer` maps user input to one of these; `u` is handled before). -/
inductive Answer where
  | y
  | n
  | py
  | pn
  | unk
deriving DecidableEq

/-- Source `split_counts`: yes/no/unknown counts of a predicate on a pool. -/
def split_counts (candidates : List Movie) (pred : Movie → Option Bool) : ℕ × ℕ × ℕ :=
  candidates.foldl
    (fun acc m =>
      match pred m with
      | some true => (acc.1 + 1, acc.2.1, acc.2.2)
      | some false => (acc.1, acc.2.1 + 1, acc.2.2)
      | none => (acc.1, acc.2.1, acc.2.2 + 1))
    (0, 0, 0)

/-- Source `Question.score` (lines 277-319), with `entropy_split` abstracted
as `ent`: sample cap at 500, rejection of one-sided splits, unknown-fraction
penalty, and the category multipliers. -/
def qscore (ent : ℕ → ℕ → ℚ) (q : Question) (candidates : List Movie) : ℚ :=
  let sample := if 500 < candidates.length then candidates.take 500 else candidates
  let c := split_counts sample q.predicate
  let yes := c.1
  let no := c.2.1
  let unk := c.2.2
  if (yes == 0 && unk == 0) || (no == 0 && unk == 0) then -1
  else
    let base := ent yes no
    let n := sample.length
    let unk_frac : ℚ := if n = 0 then 1 else (unk : ℚ) / (n : ℚ)
    let score := base - 0.35 * unk_frac
    if str_starts q.key "validate_" then score * 50
    else if str_starts q.key "language_" then score * 100
    else if str_starts_any q.key ["director_", "dyn_director_"] then score * 1.5
    else if str_starts_any q.key ["franchise_"] then score * 1.6
    else if str_starts_any q.key ["char_"] then score * 1.35
    else if str_starts_any q.key ["actor_", "dyn_actor_"] then
      (if decide (0 < yes) && decide (yes < n) then score * 1.3 else score)
    else if str_starts_any q.key ["location_", "event_", "object_"] then score * 1.25
    else if str_starts q.key "joker_title_" && decide (n ≤ 10) then score * 1.2
    else score

/-- Source `get_question_type`: question-category detection by key. -/
def get_question_type (q : Question) : String :=
  if str_starts q.key "validate_" then "validation"
  else if str_starts q.key "language_" then "language"
  else if str_starts_any q.key ["actor_", "dyn_actor_"] then "actor"
  else if str_starts_any q.key ["director_", "dyn_director_"] then "director"
  else if str_starts q.key "genre_" then "genre"
  else if str_starts_any q.key ["franchise_", "char_"] then "franchise"
  else if str_starts_any q.key ["year_", "decade_", "after_", "before_"] then "date"
  else if str_starts q.key "dyn_keyword_" then "keyword"
  else if str_starts q.key "runtime_" then "runtime"
  else if str_starts q.key "joker_title_" then "title"
  else if str_starts_any q.key ["big_budget", "small_budget", "box_office", "is_indie"] then
    "finance"
  else if str_starts_any q.key ["popular", "very_popular"] then "popularity"
  else if str_starts_any q.key
      ["is_saga", "is_standalone", "is_adaptation", "based_on_", "superhero"] then "meta"
  else if str_starts_any q.key ["is_american", "is_french", "is_european", "is_asian"] then
    "origin"
  else if str_starts_any q.key ["is_animation", "is_live_action", "is_short", "is_feature"] then
    "format"
  else if str_starts q.key "theme_" then "theme"
  else "other"

/-- The session state (`EngineState` dataclass of the source). -/
structure EngineState where
  candidates : List Movie
  asked : List String
  scores : List (Int × ℚ)
  strikes : List (Int × ℕ)
  question_count : ℕ
  guess_cooldown : ℕ
  top_streak_mid : Option Int
  top_streak_len : ℕ
  consecutive_guesses : ℕ
  recent_question_types : List String
deriving DecidableEq

/-- Dict read with default (`d.get(k, default)`) for the score table. -/
def getQ : List (Int × ℚ) → Int → ℚ
  | [], _ => 0
  | p :: t, i => if p.1 = i then p.2 else getQ t i

/-- Dict write (`d[k] = v`) for the score table. -/
def setQ : List (Int × ℚ) → Int → ℚ → List (Int × ℚ)
  | [], i, v => [(i, v)]
  | p :: t, i, v => if p.1 = i then (i, v) :: t else p :: setQ t i v

/-- Dict read with default 0 (`d.get(k, 0)`) for the strike table. -/
def getS : List (Int × ℕ) → Int → ℕ
  | [], _ => 0
  | p :: t, i => if p.1 = i then p.2 else getS t i

/-- Python `l[-w:]` for a nonzero window `w` (and `l` itself for `w = 0`). -/
def last_n (l : List String) (w : ℕ) : List String :=
  if w = 0 then l else l.drop (l.length - w)

/-- Source `count_recent_type`: occurrences of a category among the last
`window` asked-question categories. -/
def count_recent_type (state : EngineState) (q_type : String) (window : ℕ) : ℕ :=
  if state.recent_question_types.isEmpty then 0
  else ((last_n state.recent_question_types window).filter (fun x => x == q_type)).length

/-- Source `should_diversify` (lines 369-396): language and validation are
exempt; otherwise penalize a category that was used `max_consecutive` times
recently or that dominates a too-homogeneous last-5 window. -/
def should_diversify (state : EngineState) (q : Question) (max_consecutive : ℕ) : Bool :=
  let q_type := get_question_type q
  if q_type == "language" || q_type == "validation" then false
  else
    let consecutive_count := count_recent_type state q_type max_consecutive
    if max_consecutive ≤ consecutive_count then true
    else if 5 ≤ state.recent_question_types.length then
      let last_5 := last_n state.recent_question_types 5
      let unique_types := last_5.eraseDups.length
      if decide (unique_types < 3) && decide (2 ≤ (last_5.filter (fun x => x == q_type)).length) then true
      else false
    else false

/-- Stable insertion step for the sorts below. -/
def insert_le {α : Type} (le : α → α → Bool) (x : α) : List α → List α
  | [] => [x]
  | y :: t => if le x y then x :: y :: t else y :: insert_le le x t

/-- Stable sort (insertion sort), modelling Python `list.sort` with a total
boolean comparison: among elements comparing equal the original order is
kept. -/
def stableSort {α : Type} (le : α → α → Bool) : List α → List α
  | [] => []
  | x :: t => insert_le le x (stableSort le t)

/-- The fixed contradiction table of `choose_best_question`. -/
def contradictions : List (String × String) :=
  [("big_budget", "small_budget"), ("small_budget", "big_budget"),
   ("runtime_lt_90", "runtime_ge_150"), ("runtime_ge_150", "runtime_lt_90"),
   ("is_animation", "is_live_action"), ("is_live_action", "is_animation"),
   ("is_saga", "is_standalone"), ("is_standalone", "is_saga"),
   ("after_1980", "before_1970"), ("after_2000", "before_1990"),
   ("after_2020", "before_2010")]

/-- Lookup in the contradiction table (`key in contradictions`). -/
def contr_of (k : String) : Option String :=
  (contradictions.find? (fun p => p.1 == k)).map (fun p => p.2)

/-- The per-question filter of `choose_best_question` (lines 424-435):
already-asked key, unmet requires, met excludes, the one-per-session joker
cap, and the contradiction table. -/
def question_valid (asked : List String) (jokers_used : ℕ) (q : Question) : Bool :=
  !(asked.contains q.key) &&
  (match q.requires with
   | none => true
   | some req => req.all (fun k => asked.contains k)) &&
  (match q.excludes with
   | none => true
   | some exc => !(exc.any (fun k => asked.contains k))) &&
  !(str_starts q.key "joker_title_" && decide (1 ≤ jokers_used)) &&
  !(match contr_of q.key with
    | some c => asked.contains c
    | none => false)

/-- The scoring loop of `choose_best_question` (lines 445-454): score each
valid question, keep the positive ones, and crush the score of a question
whose category should be diversified away. -/
def score_filter (ent : ℕ → ℕ → ℚ) (candidates : List Movie)
    (state : Option EngineState) (valid : List Question) : List (Question × ℚ) :=
  valid.filterMap (fun q =>
    let s := qscore ent q candidates
    if 0 < s then
      let s :=
        if (match state with
            | some st => should_diversify st q 2
            | none => false) then s * 0.01
        else s
      some (q, s)
    else none)

/-- The final pick of `choose_best_question` (lines 456-467): none when
nothing scored, stable sort by score descending, a uniform top-five pick for
the first question (modelled by the oracle index `rnd`), the best scorer
otherwise. -/
def pick_scored (scored : List (Question × ℚ)) (is_first_question : Bool) (rnd : ℕ) :
    Option Question :=
  if scored.isEmpty then none
  else
    let sorted := stableSort (fun a b => decide (b.2 ≤ a.2)) scored
    if is_first_question && decide (5 ≤ sorted.length) then
      ((sorted.take 5).get? (rnd % 5)).map (fun p => p.1)
    else
      sorted.head?.map (fun p => p.1)

/-- Source `choose_best_question` (lines 399-467): filter by validity, cap
at 150, score with the diversity penalty, then pick. -/
def choose_best_question (ent : ℕ → ℕ → ℚ) (candidates : List Movie)
    (questions : List Question) (asked : List String) (is_first_question : Bool)
    (state : Option EngineState) (rnd : ℕ) : Option Question :=
  let jokers_used := (asked.filter (fun k => str_starts k "joker_title_")).length
  let valid_questions := questions.filter (question_valid asked jokers_used)
  let valid_questions :=
    if 150 < valid_questions.length then valid_questions.take 150 else valid_questions
  pick_scored (score_filter ent candidates state valid_questions) is_first_question rnd

/-- The key prefixes marking hard-elimination question classes
(`hard_elimination_prefixes` in the source, lines 1802-1810). -/
def hard_elimination_starts : List String :=
  ["franchise_", "language_", "director_", "joker_title_", "char_", "decade_", "year_"]

/-- The exact keys marking hard-elimination questions (lines 1812-1829). -/
def hard_elimination_keys : List String :=
  ["is_animation", "is_live_action", "is_short", "is_feature",
   "runtime_lt_90", "runtime_ge_150", "before_2000", "after_2010",
   "is_saga", "is_standalone", "big_budget", "small_budget",
   "is_american", "is_french", "is_european", "is_asian"]

/-- Hard-elimination test of `update_state_with_answer` (lines 1831-1835). -/
def is_hard_elimination (key : String) : Bool :=
  hard_elimination_keys.contains key ||
    hard_elimination_starts.any (fun p => str_starts key p)

/-- The `ans == "y"` loop of `update_state_with_answer` (lines 1837-1855):
keep predicate-true items with +5.0, keep unknown items with -1.0, drop
predicate-false items; returns the kept list and the updated score table. -/
def apply_yes (pred : Movie → Option Bool) :
    List Movie → List (Int × ℚ) → List Movie × List (Int × ℚ)
  | [], scores => ([], scores)
  | m :: rest, scores =>
    match movie_id m with
    | none => apply_yes pred rest scores
    | some mid =>
      match pred m with
      | some true =>
        let r := apply_yes pred rest (setQ scores mid (getQ scores mid + 5.0))
        (m :: r.1, r.2)
      | none =>
        let r := apply_yes pred rest (setQ scores mid (getQ scores mid - 1.0))
        (m :: r.1, r.2)
      | some false => apply_yes pred rest scores

/-- The `ans == "n"` loop (lines 1860-1876): keep predicate-false items with
+3.0, keep unknown items with +0.5, drop predicate-true items. -/
def apply_no (pred : Movie → Option Bool) :
    List Movie → List (Int × ℚ) → List Movie × List (Int × ℚ)
  | [], scores => ([], scores)
  | m :: rest, scores =>
    match movie_id m with
    | none => apply_no pred rest scores
    | some mid =>
      match pred m with
      | some false =>
        let r := apply_no pred rest (setQ scores mid (getQ scores mid + 3.0))
        (m :: r.1, r.2)
      | none =>
        let r := apply_no pred rest (setQ scores mid (getQ scores mid + 0.5))
        (m :: r.1, r.2)
      | some true => apply_no pred rest scores

/-- The `ans == "py"` loop (lines 1883-1894): score deltas only. -/
def apply_py (pred : Movie → Option Bool) (is_hard : Bool) :
    List Movie → List (Int × ℚ) → List (Int × ℚ)
  | [], scores => scores
  | m :: rest, scores =>
    match movie_id m with
    | none => apply_py pred is_hard rest scores
    | some mid =>
      match pred m with
      | some true =>
        apply_py pred is_hard rest
          (setQ scores mid (getQ scores mid + (if is_hard then 1.5 else 0.5)))
      | some false =>
        apply_py pred is_hard rest
          (setQ scores mid (getQ scores mid + (if is_hard then -2.0 else -0.75)))
      | none => apply_py pred is_hard rest scores

/-- The `ans == "pn"` loop (lines 1896-1907): score deltas only. -/
def apply_pn (pred : Movie → Option Bool) (is_hard : Bool) :
    List Movie → List (Int × ℚ) → List (Int × ℚ)
  | [], scores => scores
  | m :: rest, scores =>
    match movie_id m with
    | none => apply_pn pred is_hard rest scores
    | some mid =>
      match pred m with
      | some false =>
        apply_pn pred is_hard rest
          (setQ scores mid (getQ scores mid + (if is_hard then 1.5 else 0.5)))
      | some true =>
        apply_pn pred is_hard rest
          (setQ scores mid (getQ scores mid + (if is_hard then -2.0 else -0.75)))
      | none => apply_pn pred is_hard rest scores

/-- The `ans == "?"` loop (lines 1909-1916): +0.2 for unknown-predicate
items. -/
def apply_unk (pred : Movie → Option Bool) :
    List Movie → List (Int × ℚ) → List (Int × ℚ)
  | [], scores => scores
  | m :: rest, scores =>
    match movie_id m with
    | none => apply_unk pred rest scores
    | some mid =>
      match pred m with
      | none => apply_unk pred rest (setQ scores mid (getQ scores mid + 0.2))
      | some _ => apply_unk pred rest scores

/-- The strike-elimination scan (lines 1920-1926): ids of pool items whose
strike count has reached the maximum. -/
def strike_to_remove (candidates : List Movie) (strikes : List (Int × ℕ))
    (max_strikes : ℕ) : List Int :=
  candidates.filterMap (fun m =>
    match movie_id m with
    | none => none
    | some mid => if max_strikes ≤ getS strikes mid then some mid else none)

/-- The `sort_candidates` key (`key_func`, lines 1777-1783): `(-score, -pop)`
with a large negative sentinel for an id-less row. -/
def sort_key (scores : List (Int × ℚ)) (m : Movie) : ℚ × ℚ :=
  match movie_id m with
  | none => (-1000000000, 0)
  | some mid => (-(getQ scores mid), -(m.popularity))

/-- Ascending lexicographic comparison of sort keys. -/
def cand_le (scores : List (Int × ℚ)) (m1 m2 : Movie) : Bool :=
  let k1 := sort_key scores m1
  let k2 := sort_key scores m2
  decide (k1.1 < k2.1) || (decide (k1.1 = k2.1) && decide (k1.2 ≤ k2.2))

/-- Source `sort_candidates`: stable in-place sort of the pool by
`(-score, -popularity)`. -/
def sort_candidates (state : EngineState) : EngineState :=
  { state with candidates := stableSort (cand_le state.scores) state.candidates }

/-- The answer dispatch of `update_state_with_answer` (lines 1837-1916):
hard elimination on `y`/`n` for every question, score deltas only on
`py`/`pn`/`?`. -/
def update_elim (state : EngineState) (q : Question) (ans : Answer) : EngineState :=
  let is_hard := is_hard_elimination q.key
  match ans with
  | .y =>
    let r := apply_yes q.predicate state.candidates state.scores
    let remaining_ids := r.1.filterMap movie_id
    { state with candidates := r.1,
                 scores := r.2.filter (fun p => remaining_ids.contains p.1),
                 strikes := state.strikes.filter (fun p => remaining_ids.contains p.1) }
  | .n =>
    let r := apply_no q.predicate state.candidates state.scores
    let remaining_ids := r.1.filterMap movie_id
    { state with candidates := r.1,
                 scores := r.2.filter (fun p => remaining_ids.contains p.1),
                 strikes := state.strikes.filter (fun p => remaining_ids.contains p.1) }
  | .py => { state with scores := apply_py q.predicate is_hard state.candidates state.scores }
  | .pn => { state with scores := apply_pn q.predicate is_hard state.candidates state.scores }
  | .unk => { state with scores := apply_unk q.predicate state.candidates state.scores }

/-- The strike elimination of `update_state_with_answer` (lines 1919-1932):
drop every pool item whose strike count reached the maximum and prune both
tables. -/
def update_strikes (st : EngineState) (max_strikes : ℕ) : EngineState :=
  let to_remove := strike_to_remove st.candidates st.strikes max_strikes
  if to_remove.isEmpty then st
  else
    { st with
      candidates := st.candidates.filter (fun m =>
        match movie_id m with
        | none => true
        | some mid => !(to_remove.contains mid)),
      scores := st.scores.filter (fun p => !(to_remove.contains p.1)),
      strikes := st.strikes.filter (fun p => !(to_remove.contains p.1)) }

/-- Source `update_state_with_answer` (lines 1788-1934): the answer dispatch,
then the strike elimination (skipped for hard-elimination questions), then
the re-sort. -/
def update_state_with_answer (state : EngineState) (q : Question) (ans : Answer)
    (max_strikes : ℕ) : EngineState :=
  let st := update_elim state q ans
  let st := if is_hard_elimination q.key then st else update_strikes st max_strikes
  sort_candidates st

/-- Source `init_state`: full pool, all scores zero, everything else empty. -/
def init_state (movies : List Movie) : EngineState :=
  { candidates := movies,
    asked := [],
    scores := movies.foldl (fun sc m =>
      match movie_id m with
      | some mid => setQ sc mid 0.0
      | none => sc) [],
    strikes := [],
    question_count := 0,
    guess_cooldown := 0,
    top_streak_mid := none,
    top_streak_len := 0,
    consecutive_guesses := 0,
    recent_question_types := [] }

/-- Source `snapshot_state`: a fresh state whose containers are copies of the
current ones (value semantics makes each field copy the field itself). -/
def snapshot_state (state : EngineState) : EngineState :=
  { candidates := state.candidates,
    asked := state.asked,
    scores := state.scores,
    strikes := state.strikes,
    question_count := state.question_count,
    guess_cooldown := state.guess_cooldown,
    top_streak_mid := state.top_streak_mid,
    top_streak_len := state.top_streak_len,
    consecutive_guesses := state.consecutive_guesses,
    recent_question_types := state.recent_question_types }

/-- Source `score_of`: the score of a pool item, with the -1e9 sentinel for
an id-less row. -/
def score_of (state : EngineState) (m : Movie) : ℚ :=
  match movie_id m with
  | none => -1000000000
  | some mid => getQ state.scores mid

/-- Source `should_enter_guess_mode` (lines 1972-2000): single candidate, 2x
score domination (with the absolute-floor case for a non-positive runner-up),
or a rank-1 streak of at least 10. -/
def should_enter_guess_mode (state : EngineState) : Bool :=
  if state.candidates.length = 1 then true
  else
    let case2 :=
      match state.candidates with
      | m1 :: m2 :: _ =>
        let s1 := score_of state m1
        let s2 := score_of state m2
        (decide (0 < s2) && decide ((2 : ℚ) ≤ s1 / s2)) ||
          (decide (s2 ≤ 0) && decide ((10 : ℚ) ≤ s1))
      | _ => false
    if case2 then true
    else if 10 ≤ state.top_streak_len then true
    else false

/-- Source `eliminate_movie`: unconditional removal of one id from the pool
and both tables. -/
def eliminate_movie (state : EngineState) (mid : Int) : EngineState :=
  { state with
    candidates := state.candidates.filter (fun m => !(movie_id m == some mid)),
    scores := state.scores.filter (fun p => !(p.1 == mid)),
    strikes := state.strikes.filter (fun p => !(p.1 == mid)) }

/-- The engine configuration: the `--max-strikes` and `--guess-cooldown`
command-line parameters of `main`. -/
structure Config where
  max_strikes : ℕ
  guess_cooldown : ℕ
deriving DecidableEq

/-- The default configuration of `main` (max-strikes 3, guess-cooldown 2). -/
def default_config : Config :=
  { max_strikes := 3, guess_cooldown := 2 }

/-- Python `set.add` on the asked-key set (list up to membership). -/
def add_key (l : List String) (k : String) : List String :=
  if l.contains k then l else l ++ [k]

/-- The language-key set of the special rule in `main` (lines 2292-2293). -/
def all_languages : List String :=
  ["language_en", "language_fr", "language_ja", "language_es",
   "language_de", "language_it", "language_ko", "language_zh"]

/-- The `language_*` keys of the static question registry
(`default_questions`, lines 1035-1042 of the source). -/
def registry_language_keys : List String :=
  ["language_en", "language_fr", "language_ja", "language_es",
   "language_de", "language_it", "language_ko", "language_zh"]

/-- The bookkeeping part of an answered turn (lines 2281-2304): mark the key
asked, track the category for diversity, the language special rule, bump the
turn counter, reset the consecutive-guess counter, decrement the cooldown. -/
def answer_mark (s : EngineState) (q : Question) (a : Answer) : EngineState :=
  let asked1 := add_key s.asked q.key
  let rts0 := s.recent_question_types ++ [get_question_type q]
  let rts := if 10 < rts0.length then rts0.drop (rts0.length - 10) else rts0
  let asked2 :=
    if (match a with
        | .y => true
        | _ => false) && str_starts q.key "language_" then
      all_languages.foldl (fun ac lang => if lang == q.key then ac else add_key ac lang) asked1
    else asked1
  { s with
    asked := asked2,
    recent_question_types := rts,
    question_count := s.question_count + 1,
    consecutive_guesses := 0,
    guess_cooldown := if 0 < s.guess_cooldown then s.guess_cooldown - 1 else s.guess_cooldown }

/-- The top-streak update at the end of an answered turn (lines 2316-2324). -/
def streak_update (s2 : EngineState) : EngineState :=
  match s2.candidates.head? with
  | none => s2
  | some top =>
    match movie_id top with
    | none => s2
    | some mid =>
      if s2.top_streak_mid = some mid then { s2 with top_streak_len := s2.top_streak_len + 1 }
      else { s2 with top_streak_mid := some mid, top_streak_len := 1 }

/-- One answered turn of the `main` loop (lines 2281-2324): the bookkeeping
mutation, the elimination update, then the top-streak update. -/
def answer_turn (cfg : Config) (s : EngineState) (q : Question) (a : Answer) :
    EngineState :=
  streak_update (update_state_with_answer (answer_mark s q a) q a cfg.max_strikes)

/-- The rejected-guess branch of `main` (lines 2200-2208): remove the top
candidate, re-sort, set the cooldown, reset the streak, bump the
consecutive-guess counter. -/
def reject_guess (cfg : Config) (s : EngineState) : EngineState :=
  match s.candidates.head? with
  | none => s
  | some top =>
    let s1 :=
      match movie_id top with
      | some mid => eliminate_movie s mid
      | none => s
    let s2 := sort_candidates s1
    { s2 with
      guess_cooldown := cfg.guess_cooldown,
      top_streak_mid :=
        (match s2.candidates.head? with
         | none => none
         | some t => movie_id t),
      top_streak_len := 0,
      consecutive_guesses := s2.consecutive_guesses + 1 }

/-- The guess-offer gate of the main loop (line 2178): the strict rules and
a zero cooldown. -/
def guess_offered (s : EngineState) : Bool :=
  should_enter_guess_mode s && decide (s.guess_cooldown = 0)

/-- The in-turn streak guess gate of the main loop (line 2326). -/
def streak_guess_gate (s : EngineState) : Bool :=
  decide (9 ≤ s.top_streak_len) && decide (s.guess_cooldown = 0)

/-- Session start (lines 2111-2114): initial state, popularity sort, streak
fields primed from the sorted head. -/
def start_state (movies : List Movie) : EngineState :=
  let s := sort_candidates (init_state movies)
  { s with
    top_streak_mid :=
      (match s.candidates.head? with
       | none => none
       | some m => movie_id m),
    top_streak_len := 0 }

/-- The three session-level operations of the main loop: answering the
currently offered question, undo, and rejecting an offered guess. -/
inductive SessionOp where
  | answer (r : ℕ) (a : Answer)
  | undo
  | reject

/-- The question offered at a state: `choose_best_question` on the session's
question list, with first-question randomization when nothing has been asked
(`is_first` in `main`, line 2224), driven by the oracle index `r`. -/
def offered (ent : ℕ → ℕ → ℚ) (qs : List Question) (s : EngineState) (r : ℕ) :
    Option Question :=
  choose_best_question ent s.candidates qs s.asked (decide (s.question_count = 0)) (some s) r

/-- An answered turn at the session level: the push of the pre-answer
snapshot onto the undo stack (line 2279) together with the turn mutation. -/
def answer_push (cfg : Config) (sh : EngineState × List EngineState) (q : Question)
    (a : Answer) : EngineState × List EngineState :=
  (answer_turn cfg sh.1 q a, snapshot_state sh.1 :: sh.2)

/-- The undo operation (lines 2268-2277): pop the most recent snapshot; with
an empty history it is a reported no-op. -/
def undo_op (sh : EngineState × List EngineState) : EngineState × List EngineState :=
  match sh.2 with
  | [] => sh
  | s0 :: h => (s0, h)

/-- One step of the session state machine carrying the undo stack: an
answered turn pushes a snapshot (lines 2279, 2306-2312), undo pops it
(lines 2268-2277), a rejected guess mutates the state without pushing
(lines 2200-2208). -/
def session_step (cfg : Config) (ent : ℕ → ℕ → ℚ) (qs : List Question)
    (sh : EngineState × List EngineState) (op : SessionOp) :
    EngineState × List EngineState :=
  match op with
  | .answer r a =>
    match offered ent qs sh.1 r with
    | some q => answer_push cfg sh q a
    | none => sh
  | .undo => undo_op sh
  | .reject => (reject_guess cfg sh.1, sh.2)

/-- Running a list of session operations from a state and undo stack. -/
def run_session (cfg : Config) (ent : ℕ → ℕ → ℚ) (qs : List Question)
    (sh : EngineState × List EngineState) (ops : List SessionOp) :
    EngineState × List EngineState :=
  ops.foldl (session_step cfg ent qs) sh

/-- States (with their undo stacks) reachable from a fresh session by answer
applications, guess rejections and undos. -/
inductive Reach (cfg : Config) (ent : ℕ → ℕ → ℚ) (qs : List Question) :
    EngineState × List EngineState → Prop where
  | init (movies : List Movie) : Reach cfg ent qs (start_state movies, [])
  | step (sh : EngineState × List EngineState) (op : SessionOp)
      (h : Reach cfg ent qs sh) : Reach cfg ent qs (session_step cfg ent qs sh op)

/-- A concrete entropy instance: 0 on one-sided splits, 1 otherwise.  It has
the same sign as the real `entropy_split` on every split that occurs in the
concrete sessions below. -/
def ent01 : ℕ → ℕ → ℚ := fun y n => if y == 0 || n == 0 then 0 else 1

def mv_en : Movie :=
  { id := some 1, title := some "A", popularity := 3, original_language := some "en" }

def mv_fr : Movie :=
  { id := some 2, title := some "B", popularity := 2, original_language := some "fr" }

def mv_de : Movie :=
  { id := some 3, title := some "C", popularity := 1, original_language := some "de" }

def q_language_en : Question :=
  { key := "language_en", text := "La langue originale est en anglais ?",
    predicate := pred_language "en" }

def q_language_fr : Question :=
  { key := "language_fr", text := "La langue originale est en francais ?",
    predicate := pred_language "fr" }

/-- Claim C7 as stated: in any session, once a key is in the asked set, the
selector never again returns a question with that key at any later point of
the session. -/
def claim_C7 : Prop :=
  ∀ (cfg : Config) (ent : ℕ → ℕ → ℚ) (qs : List Question) (movies : List Movie)
    (ops1 ops2 : List SessionOp) (r : ℕ) (k : String),
    k ∈ (run_session cfg ent qs (start_state movies, []) ops1).1.asked →
    (offered ent qs (run_session cfg ent qs (start_state movies, []) (ops1 ++ ops2)).1 r).map
        Question.key ≠ some k

/-- Claim C8 as stated: after a session turn answers "yes" to a language
question, no other language question is ever offered again in that
session. -/
def claim_C8 : Prop :=
  ∀ (cfg : Config) (ent : ℕ → ℕ → ℚ) (qs : List Question) (movies : List Movie)
    (pre post : List SessionOp) (r r2 : ℕ) (kL k2 : String),
    (offered ent qs (run_session cfg ent qs (start_state movies, []) pre).1 r).map
        Question.key = some kL →
    str_starts kL "language_" = true →
    (offered ent qs (run_session cfg ent qs (start_state movies, [])
        (pre ++ SessionOp.answer r Answer.y :: post)).1 r2).map Question.key = some k2 →
    str_starts k2 "language_" = true →
    k2 = kL

/-- A soft-class question: its key matches no hard-elimination key and no
hard-elimination key prefix (a dynamic keyword question). -/
def q_soft_kw : Question :=
  { key := "dyn_keyword_zombie", text := "Le film contient le theme zombie ?",
    predicate := fun _ => some false }

/-- A one-candidate state with zero score and zero strikes for movie 1. -/
def st_c2 : EngineState :=
  { candidates := [mv_en], asked := [], scores := [(1, 0)], strikes := [],
    question_count := 0, guess_cooldown := 0, top_streak_mid := some 1,
    top_streak_len := 0, consecutive_guesses := 0, recent_question_types := [] }

/-- A row whose pool-level record carries no title (and no language). -/
def mv_nodata : Movie :=
  { id := some 1, title := none, popularity := 0, original_language := none }

/-- An enrichment table with no data for any identifier, as `get_details`
yields for identifiers unknown to the database. -/
def details0 : Int → Details := fun _ => empty_details

/-- A two-candidate state in which a guess is offered: the leader has score
20, the runner-up -1, and the cooldown is zero. -/
def st_c9 : EngineState :=
  { candidates := [mv_en, mv_fr], asked := [], scores := [(1, 20), (2, -1)],
    strikes := [], question_count := 3, guess_cooldown := 0,
    top_streak_mid := some 1, top_streak_len := 0, consecutive_guesses := 0,
    recent_question_types := [] }

/-- Specification helper: the total score change at id `i` produced by the
`ans == "y"` loop over a pool (+5.0 per predicate-true item with that id,
-1.0 per unknown one). -/
def yes_delta (pred : Movie → Option Bool) : List Movie → Int → ℚ
  | [], _ => 0
  | m :: t, i =>
    (if movie_id m = some i then
      (match pred m with
       | some true => 5.0
       | none => -1.0
       | some false => 0)
     else 0) + yes_delta pred t i

/-- Specification helper: the total score change at id `i` produced by the
`ans == "n"` loop over a pool (+3.0 per predicate-false item with that id,
+0.5 per unknown one). -/
def no_delta (pred : Movie → Option Bool) : List Movie → Int → ℚ
  | [], _ => 0
  | m :: t, i =>
    (if movie_id m = some i then
      (match pred m with
       | some false => 3.0
       | none => 0.5
       | some true => 0)
     else 0) + no_delta pred t i

/- Helper lemmas. -/

theorem mem_insert_le {α : Type} (le : α → α → Bool) (x a : α) :
    ∀ l : List α, (a ∈ insert_le le x l ↔ a = x ∨ a ∈ l)
  | [] => by simp [insert_le]
  | y :: t => by
    simp only [insert_le]
    split
    · simp [List.mem_cons]
    · simp only [List.mem_cons, mem_insert_le le x a t]
      tauto

theorem length_insert_le {α : Type} (le : α → α → Bool) (x : α) :
    ∀ l : List α, (insert_le le x l).length = l.length + 1
  | [] => rfl
  | y :: t => by
    simp only [insert_le]
    split
    · rfl
    · simp only [List.length_cons, length_insert_le le x t]

theorem mem_stableSort {α : Type} (le : α → α → Bool) (a : α) :
    ∀ l : List α, (a ∈ stableSort le l ↔ a ∈ l)
  | [] => Iff.rfl
  | x :: t => by
    simp only [stableSort, mem_insert_le, List.mem_cons, mem_stableSort le a t]

theorem length_stableSort {α : Type} (le : α → α → Bool) :
    ∀ l : List α, (stableSort le l).length = l.length
  | [] => rfl
  | x :: t => by
    simp only [stableSort, length_insert_le, List.length_cons, length_stableSort le t]

theorem getQ_setQ_self : ∀ (l : List (Int × ℚ)) (i : Int) (v : ℚ), getQ (setQ l i v) i = v
  | [], i, v => by simp [setQ, getQ]
  | p :: t, i, v => by
    by_cases h : p.1 = i
    · simp [setQ, h, getQ]
    · simp [setQ, h, getQ, getQ_setQ_self t i v]

theorem getQ_setQ_ne :
    ∀ (l : List (Int × ℚ)) (i : Int) (v : ℚ) (j : Int), j ≠ i → getQ (setQ l i v) j = getQ l j
  | [], i, v, j, hj => by
    have hij : ¬ (i = j) := fun hh => hj hh.symm
    simp [setQ, getQ, hij]
  | p :: t, i, v, j, hj => by
    have hij : ¬ (i = j) := fun hh => hj hh.symm
    by_cases h : p.1 = i
    · have hpj : ¬ (p.1 = j) := by
        rw [h]
        exact hij
      simp [setQ, h, getQ, hij, hpj]
    · by_cases hpj : p.1 = j
      · simp [setQ, h, getQ, hpj, hj]
      · simp [setQ, h, getQ, hpj, getQ_setQ_ne t i v j hj]

theorem getQ_filter (P : Int → Bool) :
    ∀ (l : List (Int × ℚ)) (i : Int),
      getQ (l.filter fun p => P p.1) i = if P i then getQ l i else 0
  | [], i => by cases h : P i <;> simp [getQ, h]
  | p :: t, i => by
    cases hp : P p.1
    · rw [List.filter_cons]
      simp only [hp, Bool.false_eq_true, if_false]
      by_cases hpi : p.1 = i
      · subst hpi
        simp [getQ_filter P t, hp, getQ]
      · simp [getQ_filter P t, getQ, hpi]
    · rw [List.filter_cons]
      simp only [hp, if_true]
      by_cases hpi : p.1 = i
      · subst hpi
        simp [getQ, hp]
      · simp [getQ, hpi, getQ_filter P t]

theorem getS_filter (P : Int → Bool) :
    ∀ (l : List (Int × ℕ)) (i : Int),
      getS (l.filter fun p => P p.1) i = if P i then getS l i else 0
  | [], i => by cases h : P i <;> simp [getS, h]
  | p :: t, i => by
    cases hp : P p.1
    · rw [List.filter_cons]
      simp only [hp, Bool.false_eq_true, if_false]
      by_cases hpi : p.1 = i
      · subst hpi
        simp [getS_filter P t, hp, getS]
      · simp [getS_filter P t, getS, hpi]
    · rw [List.filter_cons]
      simp only [hp, if_true]
      by_cases hpi : p.1 = i
      · subst hpi
        simp [getS, hp]
      · simp [getS, hpi, getS_filter P t]

theorem beq_ff : ((some true : Option Bool) == some false) = false := rfl

theorem beq_ff2 : ((some false : Option Bool) == some false) = true := rfl

theorem beq_ff3 : ((none : Option Bool) == some false) = false := rfl

theorem beq_tt : ((some true : Option Bool) == some true) = true := rfl

theorem beq_tt2 : ((some false : Option Bool) == some true) = false := rfl

theorem beq_tt3 : ((none : Option Bool) == some true) = false := rfl

theorem apply_yes_fst (pred : Movie → Option Bool) :
    ∀ (l : List Movie) (sc : List (Int × ℚ)),
      (apply_yes pred l sc).1
        = l.filter (fun m => (movie_id m).isSome && !(pred m == some false))
  | [], _ => rfl
  | m :: t, sc => by
    cases hid : movie_id m
    · simp [apply_yes, hid, List.filter_cons, apply_yes_fst pred t sc]
    · cases hp : pred m
      · simp [apply_yes, hid, hp, List.filter_cons, beq_ff3, apply_yes_fst pred t]
      · rename_i b
        cases b
        · simp [apply_yes, hid, hp, List.filter_cons, beq_ff2, apply_yes_fst pred t sc]
        · simp [apply_yes, hid, hp, List.filter_cons, beq_ff, apply_yes_fst pred t]

theorem apply_no_fst (pred : Movie → Option Bool) :
    ∀ (l : List Movie) (sc : List (Int × ℚ)),
      (apply_no pred l sc).1
        = l.filter (fun m => (movie_id m).isSome && !(pred m == some true))
  | [], _ => rfl
  | m :: t, sc => by
    cases hid : movie_id m
    · simp [apply_no, hid, List.filter_cons, apply_no_fst pred t sc]
    · cases hp : pred m
      · simp [apply_no, hid, hp, List.filter_cons, beq_tt3, apply_no_fst pred t]
      · rename_i b
        cases b
        · simp [apply_no, hid, hp, List.filter_cons, beq_tt2, apply_no_fst pred t]
        · simp [apply_no, hid, hp, List.filter_cons, beq_tt, apply_no_fst pred t sc]

theorem getQ_apply_yes (pred : Movie → Option Bool) :
    ∀ (l : List Movie) (sc : List (Int × ℚ)) (i : Int),
      getQ (apply_yes pred l sc).2 i = getQ sc i + yes_delta pred l i
  | [], sc, i => by simp [apply_yes, yes_delta]
  | m :: t, sc, i => by
    cases hid : movie_id m
    case none =>
      have hne : ¬ (movie_id m = some i) := by simp [hid]
      simp [apply_yes, hid, yes_delta, hne, getQ_apply_yes pred t sc i]
    case some mid =>
      cases hp : pred m
      case none =>
        simp only [apply_yes, hid, hp, yes_delta]
        rw [getQ_apply_yes pred t]
        by_cases hmi : mid = i
        · cases hmi
          rw [getQ_setQ_self]
          simp [hid, hp] <;> ring
        · rw [getQ_setQ_ne _ _ _ _ (fun hh => hmi hh.symm)]
          simp [hid, hmi] <;> ring
      case some b =>
        cases b
        case false =>
          simp only [apply_yes, hid, hp, yes_delta]
          rw [getQ_apply_yes pred t sc i]
          by_cases hmi : mid = i
          · cases hmi
            simp [hid, hp] <;> ring
          · have hne : ¬ (movie_id m = some i) := by simp [hid, hmi]
            simp [hne] <;> ring
        case true =>
          simp only [apply_yes, hid, hp, yes_delta]
          rw [getQ_apply_yes pred t]
          by_cases hmi : mid = i
          · cases hmi
            rw [getQ_setQ_self]
            simp [hid, hp] <;> ring
          · rw [getQ_setQ_ne _ _ _ _ (fun hh => hmi hh.symm)]
            simp [hid, hmi] <;> ring

theorem getQ_apply_no (pred : Movie → Option Bool) :
    ∀ (l : List Movie) (sc : List (Int × ℚ)) (i : Int),
      getQ (apply_no pred l sc).2 i = getQ sc i + no_delta pred l i
  | [], sc, i => by simp [apply_no, no_delta]
  | m :: t, sc, i => by
    cases hid : movie_id m
    case none =>
      have hne : ¬ (movie_id m = some i) := by simp [hid]
      simp [apply_no, hid, no_delta, hne, getQ_apply_no pred t sc i]
    case some mid =>
      cases hp : pred m
      case none =>
        simp only [apply_no, hid, hp, no_delta]
        rw [getQ_apply_no pred t]
        by_cases hmi : mid = i
        · cases hmi
          rw [getQ_setQ_self]
          simp [hid, hp] <;> ring
        · rw [getQ_setQ_ne _ _ _ _ (fun hh => hmi hh.symm)]
          simp [hid, hmi] <;> ring
      case some b =>
        cases b
        case true =>
          simp only [apply_no, hid, hp, no_delta]
          rw [getQ_apply_no pred t sc i]
          by_cases hmi : mid = i
          · cases hmi
            simp [hid, hp] <;> ring
          · have hne : ¬ (movie_id m = some i) := by simp [hid, hmi]
            simp [hne] <;> ring
        case false =>
          simp only [apply_no, hid, hp, no_delta]
          rw [getQ_apply_no pred t]
          by_cases hmi : mid = i
          · cases hmi
            rw [getQ_setQ_self]
            simp [hid, hp] <;> ring
          · rw [getQ_setQ_ne _ _ _ _ (fun hh => hmi hh.symm)]
            simp [hid, hmi] <;> ring

theorem contains_iff_mem {α : Type} [BEq α] [LawfulBEq α] (l : List α) (a : α) :
    l.contains a = true ↔ a ∈ l :=
  List.elem_iff

theorem mem_strike_to_remove (cands : List Movie) (strikes : List (Int × ℕ)) (ms : ℕ)
    (i : Int) :
    i ∈ strike_to_remove cands strikes ms ↔
      (∃ m ∈ cands, movie_id m = some i) ∧ ms ≤ getS strikes i := by
  simp only [strike_to_remove, List.mem_filterMap]
  constructor
  · rintro ⟨m, hm, hf⟩
    rcases hid : movie_id m with _ | mid
    · simp only [hid] at hf
      exact absurd hf (by simp)
    · simp only [hid] at hf
      split at hf
      · rename_i hms
        injection hf with hf2
        subst hf2
        exact ⟨⟨m, hm, hid⟩, hms⟩
      · exact absurd hf (by simp)
  · rintro ⟨⟨m, hm, hid⟩, hms⟩
    refine ⟨m, hm, ?_⟩
    rw [hid]
    simp [hms]

theorem strike_to_remove_nil (cands : List Movie) (ms : ℕ) (hms : 1 ≤ ms) :
    strike_to_remove cands [] ms = [] := by
  rw [List.eq_nil_iff_forall_not_mem]
  intro i hi
  rw [mem_strike_to_remove] at hi
  have h0 : getS ([] : List (Int × ℕ)) i = 0 := rfl
  rw [h0] at hi
  omega

theorem sort_candidates_asked (s : EngineState) : (sort_candidates s).asked = s.asked := rfl

theorem sort_candidates_scores (s : EngineState) : (sort_candidates s).scores = s.scores := rfl

theorem sort_candidates_strikes (s : EngineState) : (sort_candidates s).strikes = s.strikes := rfl

theorem sort_candidates_cooldown (s : EngineState) :
    (sort_candidates s).guess_cooldown = s.guess_cooldown := rfl

theorem sort_candidates_candidates (s : EngineState) :
    (sort_candidates s).candidates = stableSort (cand_le s.scores) s.candidates := rfl

theorem update_elim_asked (s : EngineState) (q : Question) (a : Answer) :
    (update_elim s q a).asked = s.asked := by cases a <;> rfl

theorem update_elim_cooldown (s : EngineState) (q : Question) (a : Answer) :
    (update_elim s q a).guess_cooldown = s.guess_cooldown := by cases a <;> rfl

theorem update_elim_strikes_nil (s : EngineState) (q : Question) (a : Answer)
    (h : s.strikes = []) : (update_elim s q a).strikes = [] := by
  cases a <;> simp [update_elim, h]

theorem update_strikes_asked (st : EngineState) (ms : ℕ) :
    (update_strikes st ms).asked = st.asked := by
  simp only [update_strikes]
  split <;> rfl

theorem update_strikes_cooldown (st : EngineState) (ms : ℕ) :
    (update_strikes st ms).guess_cooldown = st.guess_cooldown := by
  simp only [update_strikes]
  split <;> rfl

theorem update_strikes_strikes_nil (st : EngineState) (ms : ℕ) (h : st.strikes = []) :
    (update_strikes st ms).strikes = [] := by
  simp only [update_strikes]
  split
  · exact h
  · simp [h]

theorem update_asked (s : EngineState) (q : Question) (a : Answer) (ms : ℕ) :
    (update_state_with_answer s q a ms).asked = s.asked := by
  simp only [update_state_with_answer]
  split
  · rw [sort_candidates_asked, update_elim_asked]
  · rw [sort_candidates_asked, update_strikes_asked, update_elim_asked]

theorem update_cooldown (s : EngineState) (q : Question) (a : Answer) (ms : ℕ) :
    (update_state_with_answer s q a ms).guess_cooldown = s.guess_cooldown := by
  simp only [update_state_with_answer]
  split
  · rw [sort_candidates_cooldown, update_elim_cooldown]
  · rw [sort_candidates_cooldown, update_strikes_cooldown, update_elim_cooldown]

theorem update_strikes_nil (s : EngineState) (q : Question) (a : Answer) (ms : ℕ)
    (h : s.strikes = []) : (update_state_with_answer s q a ms).strikes = [] := by
  simp only [update_state_with_answer]
  split
  · rw [sort_candidates_strikes]
    exact update_elim_strikes_nil s q a h
  · rw [sort_candidates_strikes]
    exact update_strikes_strikes_nil _ _ (update_elim_strikes_nil s q a h)

theorem streak_update_asked (s : EngineState) : (streak_update s).asked = s.asked := by
  unfold streak_update
  split
  · rfl
  · split
    · rfl
    · split <;> rfl

theorem streak_update_cooldown (s : EngineState) :
    (streak_update s).guess_cooldown = s.guess_cooldown := by
  unfold streak_update
  split
  · rfl
  · split
    · rfl
    · split <;> rfl

theorem streak_update_strikes (s : EngineState) : (streak_update s).strikes = s.strikes := by
  unfold streak_update
  split
  · rfl
  · split
    · rfl
    · split <;> rfl

theorem answer_mark_strikes (s : EngineState) (q : Question) (a : Answer) :
    (answer_mark s q a).strikes = s.strikes := rfl

theorem answer_mark_cooldown (s : EngineState) (q : Question) (a : Answer) :
    (answer_mark s q a).guess_cooldown
      = if 0 < s.guess_cooldown then s.guess_cooldown - 1 else s.guess_cooldown := rfl

theorem answer_turn_cooldown (cfg : Config) (s : EngineState) (q : Question) (a : Answer) :
    (answer_turn cfg s q a).guess_cooldown
      = if 0 < s.guess_cooldown then s.guess_cooldown - 1 else s.guess_cooldown := by
  unfold answer_turn
  rw [streak_update_cooldown, update_cooldown, answer_mark_cooldown]

theorem answer_turn_strikes_nil (cfg : Config) (s : EngineState) (q : Question) (a : Answer)
    (h : s.strikes = []) : (answer_turn cfg s q a).strikes = [] := by
  unfold answer_turn
  rw [streak_update_strikes]
  apply update_strikes_nil
  rw [answer_mark_strikes]
  exact h

theorem mem_add_key (l : List String) (k a : String) :
    a ∈ add_key l k ↔ a = k ∨ a ∈ l := by
  unfold add_key
  split
  · rename_i h
    constructor
    · exact Or.inr
    · rintro (rfl | ha)
      · exact (contains_iff_mem l a).mp h
      · exact ha
  · simp [List.mem_append]
    tauto

theorem mem_foldl_mark (k0 : String) :
    ∀ (langs : List String) (ac : List String) (a : String),
      a ∈ ac →
      a ∈ langs.foldl (fun ac lang => if lang == k0 then ac else add_key ac lang) ac
  | [], _, _, ha => ha
  | l :: t, ac, a, ha => by
    simp only [List.foldl_cons]
    apply mem_foldl_mark k0 t
    split
    · exact ha
    · exact (mem_add_key _ _ _).mpr (Or.inr ha)

theorem mem_foldl_mark_of_mem (k0 : String) :
    ∀ (langs : List String) (ac : List String) (a : String),
      a ∈ langs → a ≠ k0 →
      a ∈ langs.foldl (fun ac lang => if lang == k0 then ac else add_key ac lang) ac
  | [], _, a, ha, _ => absurd ha (List.not_mem_nil a)
  | l :: t, ac, a, ha, hne => by
    simp only [List.foldl_cons]
    rcases List.mem_cons.mp ha with rfl | ha2
    · have hb : (a == k0) = false := by simp [hne]
      rw [hb]
      simp only [Bool.false_eq_true, if_false]
      exact mem_foldl_mark k0 t _ _ ((mem_add_key _ _ _).mpr (Or.inl rfl))
    · apply mem_foldl_mark_of_mem k0 t _ _ ha2 hne

theorem mem_of_head_option {α : Type} (l : List α) (a : α) (h : l.head? = some a) :
    a ∈ l := by
  cases l
  · simp at h
  · injection h with h2
    rw [h2]
    exact List.mem_cons_self _ _


theorem pick_scored_mem (scored : List (Question × ℚ)) (f : Bool) (rnd : ℕ) (q : Question)
    (h : pick_scored scored f rnd = some q) : ∃ s, (q, s) ∈ scored := by
  simp only [pick_scored] at h
  split at h
  · exact absurd h (by simp)
  · split at h
    · rcases Option.map_eq_some'.mp h with ⟨p, hp, hq⟩
      subst hq
      have hm : p ∈ stableSort (fun a b => decide (b.2 ≤ a.2)) scored :=
        List.mem_of_mem_take (List.get?_mem hp)
      exact ⟨p.2, (mem_stableSort _ _ _).mp hm⟩
    · rcases Option.map_eq_some'.mp h with ⟨p, hp, hq⟩
      subst hq
      have hm : p ∈ stableSort (fun a b => decide (b.2 ≤ a.2)) scored :=
        mem_of_head_option _ _ hp
      exact ⟨p.2, (mem_stableSort _ _ _).mp hm⟩

theorem score_filter_mem (ent : ℕ → ℕ → ℚ) (candidates : List Movie)
    (state : Option EngineState) (valid : List Question) (q : Question) (s : ℚ)
    (h : (q, s) ∈ score_filter ent candidates state valid) : q ∈ valid := by
  simp only [score_filter, List.mem_filterMap] at h
  rcases h with ⟨q0, hq0, hF⟩
  split at hF
  · injection hF with hF2
    have : q0 = q := congrArg Prod.fst hF2
    rw [← this]
    exact hq0
  · exact absurd hF (by simp)

theorem choose_some_key_not_asked (ent : ℕ → ℕ → ℚ) (candidates : List Movie)
    (questions : List Question) (asked : List String) (f : Bool)
    (st : Option EngineState) (rnd : ℕ) (q : Question)
    (h : choose_best_question ent candidates questions asked f st rnd = some q) :
    asked.contains q.key = false := by
  simp only [choose_best_question] at h
  rcases pick_scored_mem _ _ _ _ h with ⟨s, hs⟩
  have hv := score_filter_mem _ _ _ _ _ _ hs
  have hv0 : q ∈ questions.filter (question_valid asked
      (asked.filter (fun k => str_starts k "joker_title_")).length) := by
    by_cases hlen : 150 < (questions.filter (question_valid asked
        (asked.filter (fun k => str_starts k "joker_title_")).length)).length
    · rw [if_pos hlen] at hv
      exact List.mem_of_mem_take hv
    · rw [if_neg hlen] at hv
      exact hv
  have hvalid := List.of_mem_filter hv0
  simp only [question_valid, Bool.and_eq_true, Bool.not_eq_true'] at hvalid
  exact hvalid.1.1.1.1

theorem eliminate_movie_asked (s : EngineState) (mid : Int) :
    (eliminate_movie s mid).asked = s.asked := rfl

theorem reject_guess_asked (cfg : Config) (s : EngineState) :
    (reject_guess cfg s).asked = s.asked := by
  simp only [reject_guess]
  split
  · rfl
  · split <;> rfl

theorem reject_guess_strikes_nil (cfg : Config) (s : EngineState) (h : s.strikes = []) :
    (reject_guess cfg s).strikes = [] := by
  simp only [reject_guess]
  split
  · exact h
  · split
    · simp [sort_candidates_strikes, eliminate_movie, h]
    · simp [sort_candidates_strikes, h]

theorem snapshot_state_eq (s : EngineState) : snapshot_state s = s := rfl

theorem reach_strikes_nil (cfg : Config) (ent : ℕ → ℕ → ℚ) (qs : List Question)
    (sh : EngineState × List EngineState) (h : Reach cfg ent qs sh) :
    sh.1.strikes = [] ∧ ∀ s2 ∈ sh.2, s2.strikes = [] := by
  induction h with
  | init movies =>
    constructor
    · rfl
    · intro s2 hs2
      exact absurd hs2 (List.not_mem_nil s2)
  | step sh op hr ih =>
    cases op with
    | answer r a =>
      simp only [session_step]
      rcases hoff : offered ent qs sh.1 r with _ | q
      · simpa [hoff] using ih
      · simp only [hoff, answer_push]
        refine ⟨answer_turn_strikes_nil _ _ _ _ ih.1, ?_⟩
        intro s2 hs2
        rcases List.mem_cons.mp hs2 with rfl | hs3
        · rw [snapshot_state_eq]
          exact ih.1
        · exact ih.2 s2 hs3
    | undo =>
      simp only [session_step, undo_op]
      rcases hh : sh.2 with _ | ⟨s0, rest⟩
      · simpa [hh] using ih
      · refine ⟨ih.2 s0 (by rw [hh]; exact List.mem_cons_self _ _), ?_⟩
        intro s2 hs2
        exact ih.2 s2 (by rw [hh]; exact List.mem_cons_of_mem _ hs2)
    | reject =>
      simp only [session_step]
      exact ⟨reject_guess_strikes_nil _ _ ih.1, ih.2⟩

theorem update_elim_candidates_sublist (s : EngineState) (q : Question) (a : Answer) :
    List.Sublist (update_elim s q a).candidates s.candidates := by
  cases a
  case y =>
    have hc : (update_elim s q Answer.y).candidates
        = (apply_yes q.predicate s.candidates s.scores).1 := rfl
    rw [hc, apply_yes_fst]
    exact List.filter_sublist _
  case n =>
    have hc : (update_elim s q Answer.n).candidates
        = (apply_no q.predicate s.candidates s.scores).1 := rfl
    rw [hc, apply_no_fst]
    exact List.filter_sublist _
  case py => exact List.Sublist.refl _
  case pn => exact List.Sublist.refl _
  case unk => exact List.Sublist.refl _

theorem update_strikes_candidates_sublist (st : EngineState) (ms : ℕ) :
    List.Sublist (update_strikes st ms).candidates st.candidates := by
  simp only [update_strikes]
  split
  · exact List.Sublist.refl _
  · exact List.filter_sublist _

theorem update_candidates_sublist (s : EngineState) (q : Question) (a : Answer) (ms : ℕ) :
    List.Sublist
      (if is_hard_elimination q.key then update_elim s q a
       else update_strikes (update_elim s q a) ms).candidates
      s.candidates := by
  split
  · exact update_elim_candidates_sublist s q a
  · exact List.Sublist.trans (update_strikes_candidates_sublist _ _)
      (update_elim_candidates_sublist s q a)

theorem update_candidates_eq (s : EngineState) (q : Question) (a : Answer) (ms : ℕ) :
    (update_state_with_answer s q a ms).candidates
      = stableSort
          (cand_le (if is_hard_elimination q.key then update_elim s q a
                    else update_strikes (update_elim s q a) ms).scores)
          (if is_hard_elimination q.key then update_elim s q a
           else update_strikes (update_elim s q a) ms).candidates := rfl

/-- C3: for every session state, question, answer code and movie id, the
pool after `update_state_with_answer` (including strike-based removals) is
no larger than before and contains only items of the old pool, and the same
holds for `eliminate_movie`; neither operation ever adds an item to the
pool. -/
theorem C3_pool_non_increasing (s : EngineState) (q : Question) (a : Answer) (ms : ℕ)
    (mid : Int) :
    (update_state_with_answer s q a ms).candidates.length ≤ s.candidates.length
    ∧ (∀ m ∈ (update_state_with_answer s q a ms).candidates, m ∈ s.candidates)
    ∧ (eliminate_movie s mid).candidates.length ≤ s.candidates.length
    ∧ (∀ m ∈ (eliminate_movie s mid).candidates, m ∈ s.candidates) := by
  refine ⟨?_, ?_, ?_, ?_⟩
  · rw [update_candidates_eq, length_stableSort]
    exact (update_candidates_sublist s q a ms).length_le
  · intro m hm
    rw [update_candidates_eq, mem_stableSort] at hm
    exact (update_candidates_sublist s q a ms).subset hm
  · exact (List.filter_sublist _).length_le
  · intro m hm
    exact (List.filter_sublist _).subset hm

/-- C4: pushing a snapshot of a state, applying an answered turn (marking
the question asked and running the elimination update), then undoing,
restores exactly the pre-answer state and history: every field of the state
(pool, scores, strikes, asked keys, all counters) is back. -/
theorem C4_snapshot_answer_undo (cfg : Config) (s : EngineState) (h : List EngineState)
    (q : Question) (a : Answer) :
    undo_op (answer_push cfg (s, h) q a) = (s, h) := rfl

/-- C10: in every state reachable from a fresh session by answer
applications, guess rejections and undos, every strike count is zero (also
in every snapshot on the undo stack), and the strike-threshold removal scan
selects nothing whenever the configured maximum is at least 1 (the source
forces it to be). -/
theorem C10_strikes_always_zero (cfg : Config) (ent : ℕ → ℕ → ℚ) (qs : List Question)
    (s : EngineState) (h : List EngineState) (hr : Reach cfg ent qs (s, h)) :
    (∀ i, getS s.strikes i = 0)
    ∧ (1 ≤ cfg.max_strikes →
        strike_to_remove s.candidates s.strikes cfg.max_strikes = [])
    ∧ (∀ s2 ∈ h, ∀ i, getS s2.strikes i = 0) := by
  have hinv := reach_strikes_nil cfg ent qs (s, h) hr
  refine ⟨?_, ?_, ?_⟩
  · intro i
    rw [show s.strikes = [] from hinv.1]
    rfl
  · intro hms
    rw [show s.strikes = [] from hinv.1]
    exact strike_to_remove_nil _ _ hms
  · intro s2 hs2 i
    rw [hinv.2 s2 hs2]
    rfl

theorem C10_witness :
    (∀ i, getS (start_state [mv_en]).strikes i = 0)
    ∧ (1 ≤ default_config.max_strikes →
        strike_to_remove (start_state [mv_en]).candidates (start_state [mv_en]).strikes
          default_config.max_strikes = [])
    ∧ (∀ s2 ∈ ([] : List EngineState), ∀ i, getS s2.strikes i = 0) :=
  C10_strikes_always_zero default_config ent01 [] (start_state [mv_en]) []
    (Reach.init [mv_en])

/-- C1: for a question in a hard-elimination class, after answer "yes" no
surviving pool item has a false predicate, and every old pool item with an
id whose predicate is true or unknown survives; after answer "no" the same
holds with true and false exchanged. -/
theorem C1_hard_elimination (s : EngineState) (q : Question) (ms : ℕ)
    (hq : is_hard_elimination q.key = true) :
    (∀ m ∈ (update_state_with_answer s q Answer.y ms).candidates,
      q.predicate m ≠ some false)
    ∧ (∀ m ∈ s.candidates, (movie_id m).isSome → q.predicate m ≠ some false →
        m ∈ (update_state_with_answer s q Answer.y ms).candidates)
    ∧ (∀ m ∈ (update_state_with_answer s q Answer.n ms).candidates,
      q.predicate m ≠ some true)
    ∧ (∀ m ∈ s.candidates, (movie_id m).isSome → q.predicate m ≠ some true →
        m ∈ (update_state_with_answer s q Answer.n ms).candidates) := by
  have hy : (update_state_with_answer s q Answer.y ms).candidates
      = stableSort (cand_le (update_elim s q Answer.y).scores)
          (s.candidates.filter
            (fun m => (movie_id m).isSome && !(q.predicate m == some false))) := by
    rw [update_candidates_eq, if_pos hq]
    have hc : (update_elim s q Answer.y).candidates
        = (apply_yes q.predicate s.candidates s.scores).1 := rfl
    rw [hc, apply_yes_fst]
  have hn : (update_state_with_answer s q Answer.n ms).candidates
      = stableSort (cand_le (update_elim s q Answer.n).scores)
          (s.candidates.filter
            (fun m => (movie_id m).isSome && !(q.predicate m == some true))) := by
    rw [update_candidates_eq, if_pos hq]
    have hc : (update_elim s q Answer.n).candidates
        = (apply_no q.predicate s.candidates s.scores).1 := rfl
    rw [hc, apply_no_fst]
  refine ⟨?_, ?_, ?_, ?_⟩
  · intro m hm
    rw [hy, mem_stableSort] at hm
    have hcond := List.of_mem_filter hm
    simp only [Bool.and_eq_true, Bool.not_eq_true'] at hcond
    exact beq_eq_false_iff_ne.mp hcond.2
  · intro m hm hsome hpred
    rw [hy, mem_stableSort]
    refine List.mem_filter.mpr ⟨hm, ?_⟩
    simp only [Bool.and_eq_true, Bool.not_eq_true']
    exact ⟨hsome, beq_eq_false_iff_ne.mpr hpred⟩
  · intro m hm
    rw [hn, mem_stableSort] at hm
    have hcond := List.of_mem_filter hm
    simp only [Bool.and_eq_true, Bool.not_eq_true'] at hcond
    exact beq_eq_false_iff_ne.mp hcond.2
  · intro m hm hsome hpred
    rw [hn, mem_stableSort]
    refine List.mem_filter.mpr ⟨hm, ?_⟩
    simp only [Bool.and_eq_true, Bool.not_eq_true']
    exact ⟨hsome, beq_eq_false_iff_ne.mpr hpred⟩

theorem C1_witness :
    is_hard_elimination q_language_en.key = true
    ∧ (∀ m ∈ (update_state_with_answer st_c9 q_language_en Answer.y 3).candidates,
        q_language_en.predicate m ≠ some false) :=
  ⟨by decide, (C1_hard_elimination st_c9 q_language_en 3 (by decide)).1⟩

/-- C5: `should_enter_guess_mode` holds exactly when one of the three rules
does: a single remaining candidate; the leader scoring at least twice the
runner-up (or a non-positive runner-up with the leader above the absolute
floor 10); or a rank-1 streak of at least the minimum length 10. -/
theorem C5_guess_gate_iff (s : EngineState) :
    should_enter_guess_mode s = true ↔
      s.candidates.length = 1 ∨
      (match s.candidates with
       | m1 :: m2 :: _ =>
         (0 < score_of s m2 ∧ 2 * score_of s m2 ≤ score_of s m1) ∨
         (score_of s m2 ≤ 0 ∧ 10 ≤ score_of s m1)
       | _ => False) ∨
      10 ≤ s.top_streak_len := by
  have key : ∀ a b : ℚ,
      ((decide (0 < b) && decide ((2 : ℚ) ≤ a / b)) ||
        (decide (b ≤ 0) && decide ((10 : ℚ) ≤ a))) = true ↔
      ((0 < b ∧ 2 * b ≤ a) ∨ (b ≤ 0 ∧ 10 ≤ a)) := by
    intro a b
    simp only [Bool.or_eq_true, Bool.and_eq_true, decide_eq_true_eq]
    constructor
    · rintro (⟨hb, hd⟩ | h2)
      · refine Or.inl ⟨hb, ?_⟩
        rw [le_div_iff hb] at hd
        exact hd
      · exact Or.inr h2
    · rintro (⟨hb, hd⟩ | h2)
      · refine Or.inl ⟨hb, ?_⟩
        rw [le_div_iff hb]
        exact hd
      · exact Or.inr h2
  by_cases h1 : s.candidates.length = 1
  · simp [should_enter_guess_mode, h1]
  · rcases hc : s.candidates with _ | ⟨m1, t⟩
    · simp only [should_enter_guess_mode, hc]
      by_cases hst : 10 ≤ s.top_streak_len <;> simp [hst]
    · rcases ht : t with _ | ⟨m2, t2⟩
      · rw [hc, ht] at h1
        simp at h1
      · rw [ht] at hc
        have hA : ¬ (t2.length + 1 + 1 = 1) := by omega
        simp only [should_enter_guess_mode, hc, List.length_cons]
        rw [if_neg hA]
        split
        · rename_i hcase
          have hmid := (key (score_of s m1) (score_of s m2)).mp hcase
          exact ⟨fun _ => Or.inr (Or.inl hmid), fun _ => rfl⟩
        · rename_i hcase
          have hmid : ¬ ((0 < score_of s m2 ∧ 2 * score_of s m2 ≤ score_of s m1) ∨
              (score_of s m2 ≤ 0 ∧ 10 ≤ score_of s m1)) := by
            intro hcon
            exact hcase ((key (score_of s m1) (score_of s m2)).mpr hcon)
          by_cases hst : 10 ≤ s.top_streak_len
          · simp [hst, hmid, hA]
          · simp [hst, hmid, hA]

theorem str_has_empty (t : String) (h : t ≠ "") : str_has "" t = false := by
  rcases t with ⟨data⟩
  cases data
  · exact absurd rfl h
  · rfl

/-- C6 counterexample: a pool row with no title whose enriched record is
completely empty (the shape `get_details` returns for an identifier unknown
to the database) still gets `False`, not unknown, from
`pred_is_harry_potter`: the predicate ends in `return False` even when every
field it inspects is absent. -/
theorem C6_counterexample :
    mv_nodata.title = none
    ∧ (details0 1).belongs_to_collection = none
    ∧ (details0 1).keywords = []
    ∧ (details0 1).cast = []
    ∧ movie_id mv_nodata = some 1
    ∧ pred_is_harry_potter details0 mv_nodata = some false := by
  refine ⟨rfl, rfl, rfl, rfl, rfl, ?_⟩
  decide

/-- C6 amended: with the attribute absent from the pool-level record and the
enriched record empty on both paths, `pred_franchise_name` returns unknown
(never false); `pred_is_harry_potter`, however, returns known-false on the
same input. -/
theorem C6_amended (fr : String) (m : Movie) (d : Int → Details) (mid : Int)
    (hm : movie_id m = some mid) (ht : m.title = none)
    (hc : (d mid).belongs_to_collection = none) (hk : (d mid).keywords = [])
    (hcast : (d mid).cast = [])
    (hfr : str_lower fr ≠ "") :
    pred_franchise_name d fr m = none ∧ pred_is_harry_potter d m = some false := by
  constructor
  · simp only [pred_franchise_name, hm, ht]
    rw [show (none : Option String).getD "" = "" from rfl]
    rw [show str_lower "" = "" from rfl]
    rw [str_has_empty _ hfr]
    simp [hc, hk]
  · simp only [pred_is_harry_potter, hm, ht]
    rw [show (none : Option String).getD "" = "" from rfl]
    rw [show str_lower "" = "" from rfl]
    rw [str_has_empty _ (by decide)]
    simp [hc, hk, hcast]

theorem C6_witness :
    str_lower "star wars" ≠ ""
    ∧ (pred_franchise_name details0 "star wars" mv_nodata = none
      ∧ pred_is_harry_potter details0 mv_nodata = some false) :=
  ⟨by decide,
    C6_amended "star wars" mv_nodata details0 1 rfl rfl rfl rfl rfl (by decide)⟩

theorem yes_delta_of_filter_nil (pred : Movie → Option Bool) :
    ∀ (l : List Movie) (i : Int),
      l.filter (fun x => movie_id x == some i) = [] → yes_delta pred l i = 0
  | [], _, _ => rfl
  | m :: t, i, h => by
    rw [List.filter_cons] at h
    by_cases hm : movie_id m = some i
    · rw [beq_iff_eq.mpr hm] at h
      simp at h
    · rw [beq_eq_false_iff_ne.mpr hm] at h
      simp only [Bool.false_eq_true, if_false] at h
      simp [yes_delta, hm, yes_delta_of_filter_nil pred t i h]

theorem yes_delta_single (pred : Movie → Option Bool) (m : Movie) :
    ∀ (l : List Movie) (i : Int),
      l.filter (fun x => movie_id x == some i) = [m] →
      yes_delta pred l i
        = (match pred m with
           | some true => (5.0 : ℚ)
           | none => -1.0
           | some false => 0)
  | [], _, h => by simp at h
  | m2 :: t, i, h => by
    rw [List.filter_cons] at h
    by_cases hm : movie_id m2 = some i
    · rw [beq_iff_eq.mpr hm] at h
      simp only [if_true] at h
      have h1 : m2 = m := (List.cons_eq_cons.mp h).1
      have h2 : t.filter (fun x => movie_id x == some i) = [] :=
        (List.cons_eq_cons.mp h).2
      subst h1
      simp [yes_delta, hm, yes_delta_of_filter_nil pred t i h2]
    · rw [beq_eq_false_iff_ne.mpr hm] at h
      simp only [Bool.false_eq_true, if_false] at h
      simp [yes_delta, hm, yes_delta_single pred m t i h]

theorem no_delta_of_filter_nil (pred : Movie → Option Bool) :
    ∀ (l : List Movie) (i : Int),
      l.filter (fun x => movie_id x == some i) = [] → no_delta pred l i = 0
  | [], _, _ => rfl
  | m :: t, i, h => by
    rw [List.filter_cons] at h
    by_cases hm : movie_id m = some i
    · rw [beq_iff_eq.mpr hm] at h
      simp at h
    · rw [beq_eq_false_iff_ne.mpr hm] at h
      simp only [Bool.false_eq_true, if_false] at h
      simp [no_delta, hm, no_delta_of_filter_nil pred t i h]

theorem no_delta_single (pred : Movie → Option Bool) (m : Movie) :
    ∀ (l : List Movie) (i : Int),
      l.filter (fun x => movie_id x == some i) = [m] →
      no_delta pred l i
        = (match pred m with
           | some false => (3.0 : ℚ)
           | none => 0.5
           | some true => 0)
  | [], _, h => by simp at h
  | m2 :: t, i, h => by
    rw [List.filter_cons] at h
    by_cases hm : movie_id m2 = some i
    · rw [beq_iff_eq.mpr hm] at h
      simp only [if_true] at h
      have h1 : m2 = m := (List.cons_eq_cons.mp h).1
      have h2 : t.filter (fun x => movie_id x == some i) = [] :=
        (List.cons_eq_cons.mp h).2
      subst h1
      simp [no_delta, hm, no_delta_of_filter_nil pred t i h2]
    · rw [beq_eq_false_iff_ne.mpr hm] at h
      simp only [Bool.false_eq_true, if_false] at h
      simp [no_delta, hm, no_delta_single pred m t i h]

theorem contains_false_of_not_mem {α : Type} [BEq α] [LawfulBEq α] (l : List α) (a : α)
    (h : a ∉ l) : l.contains a = false := by
  by_cases hc : l.contains a = true
  · exact absurd ((contains_iff_mem l a).mp hc) h
  · exact Bool.eq_false_iff.mpr fun hcon => hc hcon

theorem update_strikes_mem (st : EngineState) (ms : ℕ) (m : Movie) (mid : Int)
    (hmid : movie_id m = some mid) (hm : m ∈ st.candidates)
    (hnr : mid ∉ strike_to_remove st.candidates st.strikes ms) :
    m ∈ (update_strikes st ms).candidates := by
  simp only [update_strikes]
  split
  · exact hm
  · refine List.mem_filter.mpr ⟨hm, ?_⟩
    simp only [hmid]
    rw [contains_false_of_not_mem _ _ hnr]
    rfl

theorem update_strikes_not_mem (st : EngineState) (ms : ℕ) (m : Movie) (mid : Int)
    (hmid : movie_id m = some mid)
    (hr : mid ∈ strike_to_remove st.candidates st.strikes ms) :
    m ∉ (update_strikes st ms).candidates := by
  simp only [update_strikes]
  split
  · rename_i hemp
    rw [List.isEmpty_iff] at hemp
    rw [hemp] at hr
    exact absurd hr (List.not_mem_nil mid)
  · intro hcon
    have hcond := List.of_mem_filter hcon
    simp only [hmid] at hcond
    rw [(contains_iff_mem _ _).mpr hr] at hcond
    exact absurd hcond (by simp)

theorem update_strikes_getQ (st : EngineState) (ms : ℕ) (i : Int)
    (hnr : i ∉ strike_to_remove st.candidates st.strikes ms) :
    getQ (update_strikes st ms).scores i = getQ st.scores i := by
  simp only [update_strikes]
  split
  · rfl
  · rw [getQ_filter (fun j => !((strike_to_remove st.candidates st.strikes ms).contains j))]
    rw [contains_false_of_not_mem _ _ hnr]
    simp

theorem getS_filter_le (P : Int → Bool) (l : List (Int × ℕ)) (i : Int) :
    getS (l.filter fun p => P p.1) i ≤ getS l i := by
  rw [getS_filter]
  split
  · exact Nat.le_refl _
  · exact Nat.zero_le _

theorem update_elim_getS_le (s : EngineState) (q : Question) (a : Answer) (i : Int) :
    getS (update_elim s q a).strikes i ≤ getS s.strikes i := by
  cases a
  case y => exact getS_filter_le _ s.strikes i
  case n => exact getS_filter_le _ s.strikes i
  case py => exact Nat.le_refl _
  case pn => exact Nat.le_refl _
  case unk => exact Nat.le_refl _

theorem update_strikes_getS_le (st : EngineState) (ms : ℕ) (i : Int) :
    getS (update_strikes st ms).strikes i ≤ getS st.strikes i := by
  simp only [update_strikes]
  split
  · exact Nat.le_refl _
  · exact getS_filter_le
      (fun j => !((strike_to_remove st.candidates st.strikes ms).contains j)) st.strikes i

theorem update_getS_le (s : EngineState) (q : Question) (a : Answer) (ms : ℕ) (i : Int) :
    getS (update_state_with_answer s q a ms).strikes i ≤ getS s.strikes i := by
  have hsort : (update_state_with_answer s q a ms).strikes
      = (if is_hard_elimination q.key then update_elim s q a
         else update_strikes (update_elim s q a) ms).strikes := rfl
  rw [hsort]
  split
  · exact update_elim_getS_le s q a i
  · exact Nat.le_trans (update_strikes_getS_le _ _ _) (update_elim_getS_le s q a i)

theorem update_elim_y_candidates (s : EngineState) (q : Question) :
    (update_elim s q Answer.y).candidates
      = s.candidates.filter
          (fun m => (movie_id m).isSome && !(q.predicate m == some false)) := by
  have hc : (update_elim s q Answer.y).candidates
      = (apply_yes q.predicate s.candidates s.scores).1 := rfl
  rw [hc, apply_yes_fst]

theorem update_elim_n_candidates (s : EngineState) (q : Question) :
    (update_elim s q Answer.n).candidates
      = s.candidates.filter
          (fun m => (movie_id m).isSome && !(q.predicate m == some true)) := by
  have hc : (update_elim s q Answer.n).candidates
      = (apply_no q.predicate s.candidates s.scores).1 := rfl
  rw [hc, apply_no_fst]

theorem update_elim_y_getQ (s : EngineState) (q : Question) (i : Int)
    (hin : i ∈ (apply_yes q.predicate s.candidates s.scores).1.filterMap movie_id) :
    getQ (update_elim s q Answer.y).scores i
      = getQ s.scores i + yes_delta q.predicate s.candidates i := by
  have hs : (update_elim s q Answer.y).scores
      = (apply_yes q.predicate s.candidates s.scores).2.filter
          (fun p =>
            ((apply_yes q.predicate s.candidates s.scores).1.filterMap movie_id).contains
              p.1) := rfl
  rw [hs,
    getQ_filter
      (fun j =>
        ((apply_yes q.predicate s.candidates s.scores).1.filterMap movie_id).contains j)]
  rw [(contains_iff_mem _ _).mpr hin]
  simp [getQ_apply_yes]

theorem update_elim_n_getQ (s : EngineState) (q : Question) (i : Int)
    (hin : i ∈ (apply_no q.predicate s.candidates s.scores).1.filterMap movie_id) :
    getQ (update_elim s q Answer.n).scores i
      = getQ s.scores i + no_delta q.predicate s.candidates i := by
  have hs : (update_elim s q Answer.n).scores
      = (apply_no q.predicate s.candidates s.scores).2.filter
          (fun p =>
            ((apply_no q.predicate s.candidates s.scores).1.filterMap movie_id).contains
              p.1) := rfl
  rw [hs,
    getQ_filter
      (fun j =>
        ((apply_no q.predicate s.candidates s.scores).1.filterMap movie_id).contains j)]
  rw [(contains_iff_mem _ _).mpr hin]
  simp [getQ_apply_no]

theorem update_elim_y_getS (s : EngineState) (q : Question) (i : Int)
    (hin : i ∈ (apply_yes q.predicate s.candidates s.scores).1.filterMap movie_id) :
    getS (update_elim s q Answer.y).strikes i = getS s.strikes i := by
  have hs : (update_elim s q Answer.y).strikes
      = s.strikes.filter
          (fun p =>
            ((apply_yes q.predicate s.candidates s.scores).1.filterMap movie_id).contains
              p.1) := rfl
  rw [hs,
    getS_filter
      (fun j =>
        ((apply_yes q.predicate s.candidates s.scores).1.filterMap movie_id).contains j)]
  rw [(contains_iff_mem _ _).mpr hin]
  simp

theorem update_elim_n_getS (s : EngineState) (q : Question) (i : Int)
    (hin : i ∈ (apply_no q.predicate s.candidates s.scores).1.filterMap movie_id) :
    getS (update_elim s q Answer.n).strikes i = getS s.strikes i := by
  have hs : (update_elim s q Answer.n).strikes
      = s.strikes.filter
          (fun p =>
            ((apply_no q.predicate s.candidates s.scores).1.filterMap movie_id).contains
              p.1) := rfl
  rw [hs,
    getS_filter
      (fun j =>
        ((apply_no q.predicate s.candidates s.scores).1.filterMap movie_id).contains j)]
  rw [(contains_iff_mem _ _).mpr hin]
  simp

theorem soft_y_behavior (s : EngineState) (q : Question) (m : Movie) (i : Int) (ms : ℕ)
    (hsoft : is_hard_elimination q.key = false)
    (hi : movie_id m = some i)
    (huniq : s.candidates.filter (fun x => movie_id x == some i) = [m])
    (hms : 1 ≤ ms) :
    (q.predicate m = some false →
      m ∉ (update_state_with_answer s q Answer.y ms).candidates)
    ∧ (q.predicate m ≠ some false → getS s.strikes i < ms →
      m ∈ (update_state_with_answer s q Answer.y ms).candidates
      ∧ getQ (update_state_with_answer s q Answer.y ms).scores i
          = getQ s.scores i + yes_delta q.predicate s.candidates i)
    ∧ (q.predicate m ≠ some false → ms ≤ getS s.strikes i →
      m ∉ (update_state_with_answer s q Answer.y ms).candidates) := by
  have hnotp : ¬ (is_hard_elimination q.key = true) := by simp [hsoft]
  have hmem0 : m ∈ s.candidates.filter (fun x => movie_id x == some i) := by
    rw [huniq]
    exact List.mem_cons_self _ _
  have hm : m ∈ s.candidates := List.mem_of_mem_filter hmem0
  refine ⟨?_, ?_, ?_⟩
  · intro hp hcon
    rw [update_candidates_eq, if_neg hnotp, mem_stableSort] at hcon
    have h2 := (update_strikes_candidates_sublist _ _).subset hcon
    rw [update_elim_y_candidates] at h2
    have hcond := List.of_mem_filter h2
    simp only [Bool.and_eq_true, Bool.not_eq_true'] at hcond
    exact beq_eq_false_iff_ne.mp hcond.2 hp
  · intro hp hstrike
    have hkeep : m ∈ (update_elim s q Answer.y).candidates := by
      rw [update_elim_y_candidates]
      refine List.mem_filter.mpr ⟨hm, ?_⟩
      simp only [Bool.and_eq_true, Bool.not_eq_true']
      exact ⟨by rw [hi]; rfl, beq_eq_false_iff_ne.mpr hp⟩
    have hkeep2 : m ∈ (apply_yes q.predicate s.candidates s.scores).1 := hkeep
    have hiR : i ∈ (apply_yes q.predicate s.candidates s.scores).1.filterMap movie_id :=
      List.mem_filterMap.mpr ⟨m, hkeep2, hi⟩
    have hgS : getS (update_elim s q Answer.y).strikes i = getS s.strikes i :=
      update_elim_y_getS s q i hiR
    have hnr : i ∉ strike_to_remove (update_elim s q Answer.y).candidates
        (update_elim s q Answer.y).strikes ms := by
      intro hcon
      have hh := ((mem_strike_to_remove _ _ _ _).mp hcon).2
      rw [hgS] at hh
      omega
    constructor
    · rw [update_candidates_eq, if_neg hnotp, mem_stableSort]
      exact update_strikes_mem _ _ _ _ hi hkeep hnr
    · have hfsc : (update_state_with_answer s q Answer.y ms).scores
          = (update_strikes (update_elim s q Answer.y) ms).scores := by
        have h0 : (update_state_with_answer s q Answer.y ms).scores
            = (if is_hard_elimination q.key then update_elim s q Answer.y
               else update_strikes (update_elim s q Answer.y) ms).scores := rfl
        rw [h0, if_neg hnotp]
      rw [hfsc, update_strikes_getQ _ _ _ hnr, update_elim_y_getQ s q i hiR]
  · intro hp hge
    have hkeep : m ∈ (update_elim s q Answer.y).candidates := by
      rw [update_elim_y_candidates]
      refine List.mem_filter.mpr ⟨hm, ?_⟩
      simp only [Bool.and_eq_true, Bool.not_eq_true']
      exact ⟨by rw [hi]; rfl, beq_eq_false_iff_ne.mpr hp⟩
    have hkeep2 : m ∈ (apply_yes q.predicate s.candidates s.scores).1 := hkeep
    have hiR : i ∈ (apply_yes q.predicate s.candidates s.scores).1.filterMap movie_id :=
      List.mem_filterMap.mpr ⟨m, hkeep2, hi⟩
    have hgS : getS (update_elim s q Answer.y).strikes i = getS s.strikes i :=
      update_elim_y_getS s q i hiR
    have hr : i ∈ strike_to_remove (update_elim s q Answer.y).candidates
        (update_elim s q Answer.y).strikes ms :=
      (mem_strike_to_remove _ _ _ _).mpr ⟨⟨m, hkeep, hi⟩, by rw [hgS]; exact hge⟩
    intro hcon
    rw [update_candidates_eq, if_neg hnotp, mem_stableSort] at hcon
    exact update_strikes_not_mem _ _ _ _ hi hr hcon

theorem soft_n_behavior (s : EngineState) (q : Question) (m : Movie) (i : Int) (ms : ℕ)
    (hsoft : is_hard_elimination q.key = false)
    (hi : movie_id m = some i)
    (huniq : s.candidates.filter (fun x => movie_id x == some i) = [m])
    (hms : 1 ≤ ms) :
    (q.predicate m = some true →
      m ∉ (update_state_with_answer s q Answer.n ms).candidates)
    ∧ (q.predicate m ≠ some true → getS s.strikes i < ms →
      m ∈ (update_state_with_answer s q Answer.n ms).candidates
      ∧ getQ (update_state_with_answer s q Answer.n ms).scores i
          = getQ s.scores i + no_delta q.predicate s.candidates i)
    ∧ (q.predicate m ≠ some true → ms ≤ getS s.strikes i →
      m ∉ (update_state_with_answer s q Answer.n ms).candidates) := by
  have hnotp : ¬ (is_hard_elimination q.key = true) := by simp [hsoft]
  have hmem0 : m ∈ s.candidates.filter (fun x => movie_id x == some i) := by
    rw [huniq]
    exact List.mem_cons_self _ _
  have hm : m ∈ s.candidates := List.mem_of_mem_filter hmem0
  refine ⟨?_, ?_, ?_⟩
  · intro hp hcon
    rw [update_candidates_eq, if_neg hnotp, mem_stableSort] at hcon
    have h2 := (update_strikes_candidates_sublist _ _).subset hcon
    rw [update_elim_n_candidates] at h2
    have hcond := List.of_mem_filter h2
    simp only [Bool.and_eq_true, Bool.not_eq_true'] at hcond
    exact beq_eq_false_iff_ne.mp hcond.2 hp
  · intro hp hstrike
    have hkeep : m ∈ (update_elim s q Answer.n).candidates := by
      rw [update_elim_n_candidates]
      refine List.mem_filter.mpr ⟨hm, ?_⟩
      simp only [Bool.and_eq_true, Bool.not_eq_true']
      exact ⟨by rw [hi]; rfl, beq_eq_false_iff_ne.mpr hp⟩
    have hkeep2 : m ∈ (apply_no q.predicate s.candidates s.scores).1 := hkeep
    have hiR : i ∈ (apply_no q.predicate s.candidates s.scores).1.filterMap movie_id :=
      List.mem_filterMap.mpr ⟨m, hkeep2, hi⟩
    have hgS : getS (update_elim s q Answer.n).strikes i = getS s.strikes i :=
      update_elim_n_getS s q i hiR
    have hnr : i ∉ strike_to_remove (update_elim s q Answer.n).candidates
        (update_elim s q Answer.n).strikes ms := by
      intro hcon
      have hh := ((mem_strike_to_remove _ _ _ _).mp hcon).2
      rw [hgS] at hh
      omega
    constructor
    · rw [update_candidates_eq, if_neg hnotp, mem_stableSort]
      exact update_strikes_mem _ _ _ _ hi hkeep hnr
    · have hfsc : (update_state_with_answer s q Answer.n ms).scores
          = (update_strikes (update_elim s q Answer.n) ms).scores := by
        have h0 : (update_state_with_answer s q Answer.n ms).scores
            = (if is_hard_elimination q.key then update_elim s q Answer.n
               else update_strikes (update_elim s q Answer.n) ms).scores := rfl
        rw [h0, if_neg hnotp]
      rw [hfsc, update_strikes_getQ _ _ _ hnr, update_elim_n_getQ s q i hiR]
  · intro hp hge
    have hkeep : m ∈ (update_elim s q Answer.n).candidates := by
      rw [update_elim_n_candidates]
      refine List.mem_filter.mpr ⟨hm, ?_⟩
      simp only [Bool.and_eq_true, Bool.not_eq_true']
      exact ⟨by rw [hi]; rfl, beq_eq_false_iff_ne.mpr hp⟩
    have hkeep2 : m ∈ (apply_no q.predicate s.candidates s.scores).1 := hkeep
    have hiR : i ∈ (apply_no q.predicate s.candidates s.scores).1.filterMap movie_id :=
      List.mem_filterMap.mpr ⟨m, hkeep2, hi⟩
    have hgS : getS (update_elim s q Answer.n).strikes i = getS s.strikes i :=
      update_elim_n_getS s q i hiR
    have hr : i ∈ strike_to_remove (update_elim s q Answer.n).candidates
        (update_elim s q Answer.n).strikes ms :=
      (mem_strike_to_remove _ _ _ _).mpr ⟨⟨m, hkeep, hi⟩, by rw [hgS]; exact hge⟩
    intro hcon
    rw [update_candidates_eq, if_neg hnotp, mem_stableSort] at hcon
    exact update_strikes_not_mem _ _ _ _ hi hr hcon

theorem soft_score_only_strike_removal (s : EngineState) (q : Question) (m : Movie)
    (i : Int) (ms : ℕ) (a : Answer)
    (hsoft : is_hard_elimination q.key = false)
    (hi : movie_id m = some i)
    (hm : m ∈ s.candidates)
    (hkeep : m ∈ (update_elim s q a).candidates)
    (hgS : getS (update_elim s q a).strikes i = getS s.strikes i)
    (hge : ms ≤ getS s.strikes i) :
    m ∉ (update_state_with_answer s q a ms).candidates := by
  have hnotp : ¬ (is_hard_elimination q.key = true) := by simp [hsoft]
  have hr : i ∈ strike_to_remove (update_elim s q a).candidates
      (update_elim s q a).strikes ms :=
    (mem_strike_to_remove _ _ _ _).mpr ⟨⟨m, hkeep, hi⟩, by rw [hgS]; exact hge⟩
  intro hcon
  rw [update_candidates_eq, if_neg hnotp, mem_stableSort] at hcon
  exact update_strikes_not_mem _ _ _ _ hi hr hcon

/-- C2 counterexample: for a soft-class question ("dyn_keyword_"), answer
"yes" on a predicate-false item with zero strikes: the claim predicts the
item stays in the pool with a -2.0 score delta and one strike (removal only
at the default maximum 3), but the code removes the item from the pool
outright and drops its score entry. -/
theorem C2_counterexample :
    is_hard_elimination q_soft_kw.key = false
    ∧ q_soft_kw.predicate mv_en = some false
    ∧ getS st_c2.strikes 1 + 1 < 3
    ∧ mv_en ∉ (update_state_with_answer st_c2 q_soft_kw Answer.y 3).candidates
    ∧ getQ (update_state_with_answer st_c2 q_soft_kw Answer.y 3).scores 1
        ≠ getQ st_c2.scores 1 - 2.0 := by
  refine ⟨by decide, by decide, by decide, by decide, by decide⟩

/-- C2 amended: for a soft-class question, answers "yes" and "no" perform
the same hard elimination as hard classes: on "yes" a predicate-false item
is removed, a predicate-true item is kept with +5.0 and an unknown item
with -1.0; on "no" a predicate-true item is removed, predicate-false kept
with +3.0 and unknown with +0.5.  Strikes are never incremented by any
answer; after any soft-class answer ("yes", "no", "probably-yes",
"probably-no" or "unknown") an item surviving the answer dispatch whose
strike count is already at or above the maximum is removed by the strike
scan.  (Hypotheses: `m` is the unique pool item with id `i`, and the
maximum is at least 1 as `main` enforces.) -/
theorem C2_amended (s : EngineState) (q : Question) (m : Movie) (i : Int) (ms : ℕ)
    (hsoft : is_hard_elimination q.key = false)
    (hi : movie_id m = some i)
    (huniq : s.candidates.filter (fun x => movie_id x == some i) = [m])
    (hms : 1 ≤ ms) :
    (q.predicate m = some false →
      m ∉ (update_state_with_answer s q Answer.y ms).candidates)
    ∧ (q.predicate m = some true → getS s.strikes i < ms →
      m ∈ (update_state_with_answer s q Answer.y ms).candidates
      ∧ getQ (update_state_with_answer s q Answer.y ms).scores i
          = getQ s.scores i + 5.0)
    ∧ (q.predicate m = none → getS s.strikes i < ms →
      m ∈ (update_state_with_answer s q Answer.y ms).candidates
      ∧ getQ (update_state_with_answer s q Answer.y ms).scores i
          = getQ s.scores i - 1.0)
    ∧ (q.predicate m ≠ some false → ms ≤ getS s.strikes i →
      m ∉ (update_state_with_answer s q Answer.y ms).candidates)
    ∧ (q.predicate m = some true →
      m ∉ (update_state_with_answer s q Answer.n ms).candidates)
    ∧ (q.predicate m = some false → getS s.strikes i < ms →
      m ∈ (update_state_with_answer s q Answer.n ms).candidates
      ∧ getQ (update_state_with_answer s q Answer.n ms).scores i
          = getQ s.scores i + 3.0)
    ∧ (q.predicate m = none → getS s.strikes i < ms →
      m ∈ (update_state_with_answer s q Answer.n ms).candidates
      ∧ getQ (update_state_with_answer s q Answer.n ms).scores i
          = getQ s.scores i + 0.5)
    ∧ (q.predicate m ≠ some true → ms ≤ getS s.strikes i →
      m ∉ (update_state_with_answer s q Answer.n ms).candidates)
    ∧ (ms ≤ getS s.strikes i →
      m ∉ (update_state_with_answer s q Answer.py ms).candidates)
    ∧ (ms ≤ getS s.strikes i →
      m ∉ (update_state_with_answer s q Answer.pn ms).candidates)
    ∧ (ms ≤ getS s.strikes i →
      m ∉ (update_state_with_answer s q Answer.unk ms).candidates)
    ∧ (∀ (a : Answer) (j : Int),
      getS (update_state_with_answer s q a ms).strikes j ≤ getS s.strikes j) := by
  have hy := soft_y_behavior s q m i ms hsoft hi huniq hms
  have hn := soft_n_behavior s q m i ms hsoft hi huniq hms
  have hm : m ∈ s.candidates := by
    have hmem0 : m ∈ s.candidates.filter (fun x => movie_id x == some i) := by
      rw [huniq]
      exact List.mem_cons_self _ _
    exact List.mem_of_mem_filter hmem0
  refine ⟨hy.1, ?_, ?_, hy.2.2, hn.1, ?_, ?_, hn.2.2,
    fun hge => soft_score_only_strike_removal s q m i ms Answer.py hsoft hi hm hm rfl hge,
    fun hge => soft_score_only_strike_removal s q m i ms Answer.pn hsoft hi hm hm rfl hge,
    fun hge => soft_score_only_strike_removal s q m i ms Answer.unk hsoft hi hm hm rfl hge,
    fun a j => update_getS_le s q a ms j⟩
  · intro hp hstrike
    have h2 := hy.2.1 (by simp [hp]) hstrike
    refine ⟨h2.1, ?_⟩
    rw [h2.2, yes_delta_single q.predicate m s.candidates i huniq, hp]
  · intro hp hstrike
    have h2 := hy.2.1 (by simp [hp]) hstrike
    refine ⟨h2.1, ?_⟩
    rw [h2.2, yes_delta_single q.predicate m s.candidates i huniq, hp]
    ring
  · intro hp hstrike
    have h2 := hn.2.1 (by simp [hp]) hstrike
    refine ⟨h2.1, ?_⟩
    rw [h2.2, no_delta_single q.predicate m s.candidates i huniq, hp]
  · intro hp hstrike
    have h2 := hn.2.1 (by simp [hp]) hstrike
    refine ⟨h2.1, ?_⟩
    rw [h2.2, no_delta_single q.predicate m s.candidates i huniq, hp]

theorem C2_witness :
    (is_hard_elimination q_soft_kw.key = false
      ∧ movie_id mv_en = some 1
      ∧ st_c2.candidates.filter (fun x => movie_id x == some (1 : Int)) = [mv_en]
      ∧ 1 ≤ 3)
    ∧ (q_soft_kw.predicate mv_en = some false →
      mv_en ∉ (update_state_with_answer st_c2 q_soft_kw Answer.y 3).candidates) :=
  ⟨⟨by decide, by decide, by decide, by decide⟩,
    (C2_amended st_c2 q_soft_kw mv_en 1 3 (by decide) (by decide) (by decide)
      (by decide)).1⟩

/-- C9: under the default configuration, rejecting an offered guess removes
exactly the guessed top candidate (every other pool item survives), sets the
guess cooldown to the non-zero default 2, and neither guess gate of the
immediately following turn can fire: the loop-top gate sees cooldown 2 and
the in-turn streak gate after the next answered question sees cooldown 1. -/
theorem C9_reject_guess (s : EngineState) (top : Movie) (rest : List Movie) (mid : Int)
    (hg : guess_offered s = true)
    (hc : s.candidates = top :: rest)
    (hmid : movie_id top = some mid)
    (huniq : s.candidates.filter (fun x => movie_id x == some mid) = [top]) :
    top ∉ (reject_guess default_config s).candidates
    ∧ (∀ m ∈ rest, m ∈ (reject_guess default_config s).candidates)
    ∧ (reject_guess default_config s).guess_cooldown = 2
    ∧ (reject_guess default_config s).guess_cooldown ≠ 0
    ∧ guess_offered (reject_guess default_config s) = false
    ∧ (∀ (q : Question) (a : Answer),
      streak_guess_gate (answer_turn default_config (reject_guess default_config s) q a)
        = false) := by
  have hhead : s.candidates.head? = some top := by rw [hc]; rfl
  have hred : reject_guess default_config s
      = { sort_candidates (eliminate_movie s mid) with
          guess_cooldown := default_config.guess_cooldown,
          top_streak_mid :=
            (match (sort_candidates (eliminate_movie s mid)).candidates.head? with
             | none => none
             | some t => movie_id t),
          top_streak_len := 0,
          consecutive_guesses :=
            (sort_candidates (eliminate_movie s mid)).consecutive_guesses + 1 } := by
    simp only [reject_guess, hhead, hmid]
  have hcands : (reject_guess default_config s).candidates
      = stableSort (cand_le (eliminate_movie s mid).scores)
          (s.candidates.filter (fun m => !(movie_id m == some mid))) := by
    rw [hred]
    rfl
  have hfr : rest.filter (fun x => movie_id x == some mid) = [] := by
    rw [hc, List.filter_cons] at huniq
    rw [beq_iff_eq.mpr hmid] at huniq
    simp only [if_true] at huniq
    exact (List.cons_eq_cons.mp huniq).2
  have hcool : (reject_guess default_config s).guess_cooldown = 2 := by
    rw [hred]
    rfl
  refine ⟨?_, ?_, hcool, by rw [hcool]; exact two_ne_zero, ?_, ?_⟩
  · intro hcon
    rw [hcands, mem_stableSort] at hcon
    have hcond := List.of_mem_filter hcon
    rw [beq_iff_eq.mpr hmid] at hcond
    exact absurd hcond (by simp)
  · intro m hm
    have hmne : ¬ (movie_id m = some mid) := by
      intro hcon
      have hin : m ∈ rest.filter (fun x => movie_id x == some mid) :=
        List.mem_filter.mpr ⟨hm, beq_iff_eq.mpr hcon⟩
      rw [hfr] at hin
      exact absurd hin (List.not_mem_nil m)
    rw [hcands, mem_stableSort]
    refine List.mem_filter.mpr ⟨by rw [hc]; exact List.mem_cons_of_mem _ hm, ?_⟩
    rw [beq_eq_false_iff_ne.mpr hmne]
    rfl
  · unfold guess_offered
    rw [hcool]
    simp
  · intro q a
    unfold streak_guess_gate
    rw [answer_turn_cooldown, hcool]
    simp

theorem C9_witness :
    (guess_offered st_c9 = true
      ∧ st_c9.candidates = mv_en :: [mv_fr]
      ∧ movie_id mv_en = some 1
      ∧ st_c9.candidates.filter (fun x => movie_id x == some (1 : Int)) = [mv_en])
    ∧ (reject_guess default_config st_c9).guess_cooldown = 2 :=
  ⟨⟨by decide, by decide, by decide, by decide⟩,
    (C9_reject_guess st_c9 mv_en [mv_fr] 1 (by decide) (by decide) (by decide)
      (by decide)).2.2.1⟩

theorem answer_turn_asked (cfg : Config) (s : EngineState) (q : Question) (a : Answer) :
    (answer_turn cfg s q a).asked = (answer_mark s q a).asked := by
  unfold answer_turn
  rw [streak_update_asked, update_asked]

theorem answer_mark_asked_mono (s : EngineState) (q : Question) (a : Answer) (k : String)
    (hk : k ∈ s.asked) : k ∈ (answer_mark s q a).asked := by
  simp only [answer_mark]
  split
  · exact mem_foldl_mark _ _ _ _ ((mem_add_key _ _ _).mpr (Or.inr hk))
  · exact (mem_add_key _ _ _).mpr (Or.inr hk)

/-- C7 amended: the selector never returns a question whose key is in the
asked set; an answered turn only ever adds keys to the asked set; a rejected
guess leaves the asked set unchanged.  Hence a key, once asked, is never
offered again as long as it stays in the asked set; only an undo (which
restores an earlier, smaller asked set) can make the key eligible again. -/
theorem C7_amended :
    (∀ (ent : ℕ → ℕ → ℚ) (candidates : List Movie) (questions : List Question)
      (asked : List String) (f : Bool) (st : Option EngineState) (rnd : ℕ)
      (q : Question),
      choose_best_question ent candidates questions asked f st rnd = some q →
      asked.contains q.key = false)
    ∧ (∀ (cfg : Config) (s : EngineState) (q : Question) (a : Answer) (k : String),
      k ∈ s.asked → k ∈ (answer_turn cfg s q a).asked)
    ∧ (∀ (cfg : Config) (s : EngineState), (reject_guess cfg s).asked = s.asked) := by
  refine ⟨choose_some_key_not_asked, ?_, reject_guess_asked⟩
  intro cfg s q a k hk
  rw [answer_turn_asked]
  exact answer_mark_asked_mono s q a k hk

theorem C7_witness :
    (choose_best_question ent01 [mv_en, mv_fr] [q_language_en] ["foo"] false none 0
      = some q_language_en)
    ∧ (["foo"] : List String).contains q_language_en.key = false :=
  ⟨by rfl,
    C7_amended.1 ent01 [mv_en, mv_fr] [q_language_en] ["foo"] false none 0
      q_language_en (by rfl)⟩

/-- C7 counterexample: in a concrete session, the key "language_en" is
asked on the first turn (it enters the asked set), the turn is undone, and
the selector then returns the question with that same key again on a later
turn of the same session — so a key, once asked, can reappear. -/
theorem C7_counterexample : ¬ claim_C7 := by
  intro h
  have h2 := h default_config ent01 [q_language_en] [mv_en, mv_fr]
    [SessionOp.answer 0 Answer.y] [SessionOp.undo] 0 "language_en" (by decide)
  exact h2 (by decide)

/-- C8 amended: a "yes" answered turn on a language question marks every key
of the fixed language set as asked (the answered one included); that set is
exactly the language keys of the static registry; and the selector never
returns a question whose key is in the asked set.  Hence no other language
question is offered while those keys stay asked; only an undo can unmark
them. -/
theorem C8_amended :
    (∀ (cfg : Config) (s : EngineState) (q : Question),
      str_starts q.key "language_" = true →
      ∀ k ∈ all_languages, k ∈ (answer_turn cfg s q Answer.y).asked)
    ∧ registry_language_keys = all_languages
    ∧ (∀ (ent : ℕ → ℕ → ℚ) (candidates : List Movie) (questions : List Question)
      (asked : List String) (f : Bool) (st : Option EngineState) (rnd : ℕ)
      (q : Question),
      asked.contains q.key = true →
      choose_best_question ent candidates questions asked f st rnd ≠ some q) := by
  refine ⟨?_, rfl, ?_⟩
  · intro cfg s q hl k hk
    rw [answer_turn_asked]
    simp only [answer_mark]
    rw [if_pos (by simp [hl])]
    by_cases hkq : k = q.key
    · subst hkq
      exact mem_foldl_mark _ _ _ _ ((mem_add_key _ _ _).mpr (Or.inl rfl))
    · exact mem_foldl_mark_of_mem _ _ _ _ hk hkq
  · intro ent candidates questions asked f st rnd q hk hcon
    rw [choose_some_key_not_asked ent candidates questions asked f st rnd q hcon] at hk
    exact Bool.false_ne_true hk

theorem C8_witness :
    (str_starts q_language_en.key "language_" = true
      ∧ "language_fr" ∈ all_languages)
    ∧ "language_fr" ∈
        (answer_turn default_config (start_state [mv_en]) q_language_en Answer.y).asked :=
  ⟨⟨by decide, by decide⟩,
    C8_amended.1 default_config (start_state [mv_en]) q_language_en (by decide)
      "language_fr" (by decide)⟩

/-- C8 counterexample: in a concrete session, "yes" is answered to the
offered language question "language_en" (marking all other language keys),
the turn is undone, the same question is re-answered "no", and the selector
then offers "language_fr" — a different language question offered after a
"yes" to a language question in the same session. -/
theorem C8_counterexample : ¬ claim_C8 := by
  intro h
  have h2 := h default_config ent01 [q_language_en, q_language_fr]
    [mv_en, mv_fr, mv_de] [] [SessionOp.undo, SessionOp.answer 0 Answer.n] 0 0
    "language_en" "language_fr" (by decide) (by decide) (by decide) (by decide)
  exact absurd h2 (by decide)

theorem C3_witness :
    (update_state_with_answer st_c2 q_soft_kw Answer.y 3).candidates.length
      ≤ st_c2.candidates.length
    ∧ (eliminate_movie st_c2 7).candidates.length ≤ st_c2.candidates.length :=
  ⟨(C3_pool_non_increasing st_c2 q_soft_kw Answer.y 3 7).1,
    (C3_pool_non_increasing st_c2 q_soft_kw Answer.y 3 7).2.2.1⟩

theorem C4_witness :
    undo_op (answer_push default_config (st_c2, []) q_soft_kw Answer.y) = (st_c2, []) :=
  C4_snapshot_answer_undo default_config st_c2 [] q_soft_kw Answer.y

theorem C5_witness : should_enter_guess_mode st_c9 = true :=
  (C5_guess_gate_iff st_c9).mpr (Or.inr (Or.inl (Or.inr ⟨by decide, by decide⟩)))
